import Mathlib

/-!
Verification of the DesktopFriends plugin host
(`apps/desktop/src-tauri/src/plugins/{api,loader,registry,hooks,manager}.rs`).

The Rust code is shallowly embedded as pure Lean functions:

* JSON values (`serde_json::Value`) become the inductive `Json`.
* Strings returned by a plugin across the C FFI boundary are abstracted by
  `CStringRet α`: the returned pointer is null, or points at a string that
  parses as an `α`, or at a string that fails JSON parsing.  A plugin module's
  behaviour (its exported entry points) is the structure `PluginFFI`; what the
  dynamic linker finds at a library path is supplied by an `Env`.
* `HashMap`/`HashSet` become association lists / lists, with the operations
  (`insertKey`, `updateVal`, `eraseKey`, bucket insertion/removal) mirroring
  the corresponding `std::collections` calls made by the source.
* Filesystem paths are lists of components (`Path`); the relevant slice of the
  filesystem (plugin directories with their `manifest.json`, regular files,
  and the content of the registry state file) is carried in the state, and
  `fs::remove_dir_all` / file extraction are modelled on it.  Archive
  extraction mechanics are out of scope of the specification (§1), so a
  package is modelled as the manifest found inside it plus the relative paths
  of the files it deposits in the plugin directory.
* Fallible Rust functions (`Result<T, E>`) become `Except E T`; methods that
  mutate `&mut self` additionally return the updated state.
-/

/-- `serde_json::Value`. -/
inductive Json where
  | null
  | bool (b : Bool)
  | num (n : Int)
  | str (s : String)
  | arr (elems : List Json)
  | obj (fields : List (String × Json))

/-- Filesystem paths as lists of components (`PathBuf`); `p.join q` is `p ++ q`. -/
abbrev FPath := List String

/-- `PluginContext` (api.rs): handed to a plugin's initialize entry point. -/
structure PluginContext where
  plugin_id : String
  data_dir : FPath
  config : Json

/-- `ToolCall` (api.rs). -/
structure ToolCall where
  name : String
  arguments : Json

/-- `ToolResult` (api.rs). -/
structure ToolResult where
  success : Bool
  data : Json
  error : Option String

/-- `ToolDefinition` (api.rs). -/
structure ToolDefinition where
  plugin_id : String
  name : String
  description : String
  parameters : Json

/-- `UIPosition` (api.rs). -/
inductive UIPosition where
  | sidebar
  | toolbar
  | floating

/-- `PluginUI` (api.rs). -/
structure PluginUI where
  panel : String
  position : UIPosition
  windows : Option Json

/-- `ManifestTool` (api.rs). -/
structure ManifestTool where
  name : String
  description : String
  parameters : Json

/-- `PluginManifest` (api.rs): contents of a plugin's `manifest.json`. -/
structure PluginManifest where
  id : String
  name : String
  version : String
  author : String
  description : String
  main : String
  ui : Option PluginUI
  permissions : List String
  tools : List ManifestTool
  hooks : List String

/-- `PluginInfo` (api.rs). -/
structure PluginInfo where
  id : String
  name : String
  version : String
  author : String
  description : String
  enabled : Bool
  ui : Option PluginUI
  dir : FPath

/-- `HookResult` (hooks.rs). -/
structure HookResult where
  plugin_id : String
  data : Json

/-! ### Association-list operations mirroring `HashMap` -/

/-- `HashMap::remove`: drop the entry with the given key. -/
def eraseKey [BEq κ] (k : κ) (l : List (κ × β)) : List (κ × β) :=
  l.eraseP (fun p => p.1 == k)

/-- `HashMap::get_mut` followed by an in-place update of the value at `k`. -/
def updateVal [BEq κ] (k : κ) (f : β → β) (l : List (κ × β)) : List (κ × β) :=
  l.map (fun p => if p.1 == k then (p.1, f p.2) else p)

/-- `HashMap::insert`: overwrite the value at `k`, or add a fresh entry. -/
def insertKey [BEq κ] (k : κ) (v : β) (l : List (κ × β)) : List (κ × β) :=
  if (l.lookup k).isSome then l.map (fun p => if p.1 == k then (k, v) else p)
  else (k, v) :: l

/-- The keys of an association list are pairwise distinct (the `HashMap`
representation invariant). -/
def keysNodup [BEq κ] (l : List (κ × β)) : Prop := (l.map Prod.fst).Nodup

/-! ### Loader (loader.rs) -/

inductive LoaderError where
  | libraryLoad (msg : String)
  | symbolNotFound (sym : String) (msg : String)
  | pluginNotLoaded (id : String)
  | initializeFailed (msg : String)
  | shutdownFailed (msg : String)
  | jsonError (msg : String)

/-- A C string returned by a plugin, as the host observes it after the
null-check and the JSON parse into `α`: the pointer was null, or the string
parsed as an `α`, or parsing failed. -/
inductive CStringRet (α : Type) where
  | null
  | ok (a : α)
  | malformed

/-- `PluginFFI` (loader.rs): the behaviour of a plugin's seven resolved entry
points.  `free_string` only releases memory and has no observable effect in
the model; `get_last_error` is the message the accessor yields (none = null). -/
structure PluginFFI where
  init : PluginContext → Int
  shutdown : Int
  get_tools : CStringRet (List ToolDefinition)
  execute_tool : ToolCall → CStringRet ToolResult
  on_hook : String → Json → CStringRet Json
  get_last_error : Option String

/-- The seven entry points `PluginLoader::load` resolves, in resolution order. -/
def requiredSymbols : List String :=
  ["plugin_initialize", "plugin_shutdown", "plugin_get_tools",
   "plugin_execute_tool", "plugin_on_hook", "plugin_free_string",
   "plugin_get_last_error"]

/-- What `Library::new` finds at a path: which symbols the module exports, and
the behaviour of its entry points. -/
structure PluginModule where
  hasSymbol : String → Bool
  ffi : PluginFFI

/-- The ambient dynamic-linking environment: `Library::new(path)` either fails
(`none`) or yields a module. -/
structure Env where
  openLib : FPath → Option PluginModule

/-- `LoadedPlugin` (loader.rs): in the model the held `Library` is relevant
only through its resolved entry points, so a loaded plugin is its `PluginFFI`. -/
structure PluginLoader where
  plugins : List (String × PluginFFI)

namespace PluginLoader

/-- `PluginLoader::is_loaded`. -/
def is_loaded (l : PluginLoader) (plugin_id : String) : Bool :=
  (l.plugins.lookup plugin_id).isSome

/-- `PluginLoader::unload`. -/
def unload (l : PluginLoader) (plugin_id : String) :
    Except LoaderError Unit × PluginLoader :=
  if (l.plugins.lookup plugin_id).isSome then
    (.ok (), ⟨eraseKey plugin_id l.plugins⟩)
  else
    (.error (.pluginNotLoaded plugin_id), l)

/-- `PluginLoader::load`: unload a previous copy, open the library, resolve
the seven entry points in order (failing on the first missing one), and
register the `LoadedPlugin`. -/
def load (env : Env) (l : PluginLoader) (plugin_id : String) (lib_path : FPath) :
    Except LoaderError Unit × PluginLoader :=
  let l :=
    if (l.plugins.lookup plugin_id).isSome then (l.unload plugin_id).2 else l
  match env.openLib lib_path with
  | none => (.error (.libraryLoad "open"), l)
  | some m =>
    match requiredSymbols.find? (fun s => !(m.hasSymbol s)) with
    | some s => (.error (.symbolNotFound s "symbol"), l)
    | none => (.ok (), ⟨(plugin_id, m.ffi) :: l.plugins⟩)

/-- `PluginLoader::initialize` (renamed: `initialize` is reserved in Lean):
call the entry point; on a non-zero status consult `get_last_error` for the
message.  Does not change the plugin map. -/
def initPlugin (l : PluginLoader) (plugin_id : String) (ctx : PluginContext) :
    Except LoaderError Unit :=
  match l.plugins.lookup plugin_id with
  | none => .error (.pluginNotLoaded plugin_id)
  | some ffi =>
    let result := ffi.init ctx
    if result ≠ 0 then
      match ffi.get_last_error with
      | some msg => .error (.initializeFailed msg)
      | none => .error (.initializeFailed ("Unknown error (code: " ++ toString result ++ ")"))
    else .ok ()

/-- `PluginLoader::shutdown`: same convention as `initialize`. -/
def shutdown (l : PluginLoader) (plugin_id : String) : Except LoaderError Unit :=
  match l.plugins.lookup plugin_id with
  | none => .error (.pluginNotLoaded plugin_id)
  | some ffi =>
    if ffi.shutdown ≠ 0 then
      match ffi.get_last_error with
      | some msg => .error (.shutdownFailed msg)
      | none => .error (.shutdownFailed ("Unknown error (code: " ++ toString ffi.shutdown ++ ")"))
    else .ok ()

/-- `PluginLoader::get_tools`: a null return is an empty tool list; a string
that fails to parse is a `JsonError`. -/
def get_tools (l : PluginLoader) (plugin_id : String) :
    Except LoaderError (List ToolDefinition) :=
  match l.plugins.lookup plugin_id with
  | none => .error (.pluginNotLoaded plugin_id)
  | some ffi =>
    match ffi.get_tools with
    | .null => .ok []
    | .ok tools => .ok tools
    | .malformed => .error (.jsonError "parse")

/-- `Result::unwrap_or_default` at type `Vec<ToolDefinition>`. -/
def unwrapOrNil (e : Except LoaderError (List ToolDefinition)) : List ToolDefinition :=
  match e with
  | .ok tools => tools
  | .error _ => []

/-- `PluginLoader::get_all_tools`: flat-map `get_tools(id).unwrap_or_default()`
over the keys of the plugin map. -/
def get_all_tools (l : PluginLoader) : List ToolDefinition :=
  (l.plugins.map Prod.fst).flatMap (fun id => unwrapOrNil (l.get_tools id))

/-- `PluginLoader::execute_tool`: a null return becomes a synthetic failure
`ToolResult`; a string that fails to parse is a `JsonError`. -/
def execute_tool (l : PluginLoader) (plugin_id : String) (call : ToolCall) :
    Except LoaderError ToolResult :=
  match l.plugins.lookup plugin_id with
  | none => .error (.pluginNotLoaded plugin_id)
  | some ffi =>
    match ffi.execute_tool call with
    | .null => .ok ⟨false, Json.null, some "Plugin returned null"⟩
    | .malformed => .error (.jsonError "parse")
    | .ok result => .ok result

/-- `PluginLoader::trigger_hook`: a null return means "no response". -/
def trigger_hook (l : PluginLoader) (plugin_id : String) (hook_name : String)
    (data : Json) : Except LoaderError (Option Json) :=
  match l.plugins.lookup plugin_id with
  | none => .error (.pluginNotLoaded plugin_id)
  | some ffi =>
    match ffi.on_hook hook_name data with
    | .null => .ok none
    | .malformed => .error (.jsonError "parse")
    | .ok v => .ok (some v)

end PluginLoader

/-! ### Hook dispatcher (hooks.rs) -/

/-- A `HashSet<String>` bucket: insert if absent. -/
def bucketInsert (v : String) (vs : List String) : List String :=
  if vs.contains v then vs else v :: vs

/-- `HookDispatcher` (hooks.rs): forward map hook → subscriber ids and
reverse map plugin id → hook names. -/
structure HookDispatcher where
  hooks : List (String × List String)
  plugin_hooks : List (String × List String)

namespace HookDispatcher

/-- `hooks.entry(k).or_default().insert(v)`. -/
def mapBucketInsert (m : List (String × List String)) (k v : String) :
    List (String × List String) :=
  if (m.lookup k).isSome then updateVal k (bucketInsert v) m else (k, [v]) :: m

/-- Remove `v` from the bucket at `k`, dropping the bucket if it became empty
(the body of the `if let Some(plugins) = map.get_mut(k)` blocks). -/
def mapBucketRemove (m : List (String × List String)) (k v : String) :
    List (String × List String) :=
  (m.map (fun p => if p.1 == k then (p.1, p.2.erase v) else p)).filter
    (fun p => !(p.1 == k && p.2.isEmpty))

/-- `HookDispatcher::register`. -/
def register (d : HookDispatcher) (hook_name plugin_id : String) : HookDispatcher :=
  { hooks := mapBucketInsert d.hooks hook_name plugin_id,
    plugin_hooks := mapBucketInsert d.plugin_hooks plugin_id hook_name }

/-- `HookDispatcher::register_many`. -/
def register_many (d : HookDispatcher) (hookNames : List String) (plugin_id : String) :
    HookDispatcher :=
  hookNames.foldl (fun acc h => acc.register h plugin_id) d

/-- `HookDispatcher::unregister_all`: take the plugin's hook set out of the
reverse map, then prune the plugin from each of those forward buckets. -/
def unregister_all (d : HookDispatcher) (plugin_id : String) : HookDispatcher :=
  match d.plugin_hooks.lookup plugin_id with
  | none => d
  | some hs =>
    { plugin_hooks := eraseKey plugin_id d.plugin_hooks,
      hooks := hs.foldl (fun acc h => mapBucketRemove acc h plugin_id) d.hooks }

/-- `HookDispatcher::get_listeners`. -/
def get_listeners (d : HookDispatcher) (hook_name : String) : List String :=
  (d.hooks.lookup hook_name).getD []

/-- `HookDispatcher::get_plugin_hooks`. -/
def get_plugin_hooks (d : HookDispatcher) (plugin_id : String) : List String :=
  (d.plugin_hooks.lookup plugin_id).getD []

end HookDispatcher

/-! ### Registry (registry.rs) -/

inductive RegistryError where
  | pluginNotFound (id : String)
  | pluginExists (id : String)
  | invalidManifest (msg : String)

/-- `PluginState` (registry.rs): one plugin's slice of the persisted file. -/
structure PluginState where
  enabled : Bool
  config : Json

/-- `RegistryData` (registry.rs): contents of `registry.json`. -/
structure RegistryData where
  plugins : List (String × PluginState)

/-- `PluginEntry` (registry.rs). -/
structure PluginEntry where
  manifest : PluginManifest
  dir : FPath
  lib_path : FPath
  enabled : Bool
  config : Json

/-- `PluginEntry::to_info`. -/
def PluginEntry.to_info (e : PluginEntry) : PluginInfo :=
  { id := e.manifest.id, name := e.manifest.name, version := e.manifest.version,
    author := e.manifest.author, description := e.manifest.description,
    enabled := e.enabled, ui := e.manifest.ui, dir := e.dir }

/-- The slice of the filesystem the plugin host touches: the immediate
subdirectories of the plugins root (with the parsed `manifest.json` each
contains, if any), and the regular files that exist (library paths). -/
structure FS where
  dirs : List (FPath × Option PluginManifest)
  files : List FPath

/-- `PluginRegistry` (registry.rs).  `saved` is the current content of the
state file `registry.json` on disk (what `load_state` would read back). -/
structure PluginRegistry where
  plugins_dir : FPath
  entries : List (String × PluginEntry)
  saved : RegistryData

namespace PluginRegistry

/-- The `RegistryData` that `save_state` derives from the in-memory entries. -/
def deriveData (entries : List (String × PluginEntry)) : RegistryData :=
  ⟨entries.map (fun p => (p.1, ⟨p.2.enabled, p.2.config⟩))⟩

/-- `PluginRegistry::save_state`: synchronously flush the in-memory entries
to the state file. -/
def save_state (r : PluginRegistry) : PluginRegistry :=
  { r with saved := deriveData r.entries }

/-- The body of the `scan_plugins` loop for one directory entry: if the
directory has a valid `manifest.json`, insert a `PluginEntry` for it, taking
`enabled`/`config` from the persisted state when present. -/
def scanEntry (registry_data : RegistryData) (dirPath : FPath)
    (manifest : PluginManifest) : PluginEntry :=
  let st := (registry_data.plugins.lookup manifest.id).getD ⟨false, Json.obj []⟩
  { manifest := manifest, dir := dirPath, lib_path := dirPath ++ [manifest.main],
    enabled := st.enabled, config := st.config }

def scanOne (registry_data : RegistryData)
    (entries : List (String × PluginEntry)) (d : FPath × Option PluginManifest) :
    List (String × PluginEntry) :=
  match d.2 with
  | none => entries
  | some manifest =>
    insertKey manifest.id (scanEntry registry_data d.1 manifest) entries

/-- `PluginRegistry::scan_plugins` starting from the given entry map: load the
persisted state, then fold over the plugin directories. -/
def scanPlugins (r : PluginRegistry) (fs : FS) : PluginRegistry :=
  { r with entries := fs.dirs.foldl (scanOne r.saved) r.entries }

/-- `PluginRegistry::new`: `ondisk` is what `load_state` reads from
`registry.json` (the default empty data when the file is absent). -/
def new (plugins_dir : FPath) (ondisk : RegistryData) (fs : FS) : PluginRegistry :=
  scanPlugins ⟨plugins_dir, [], ondisk⟩ fs

/-- `PluginRegistry::register`. -/
def register (r : PluginRegistry) (manifest : PluginManifest) (plugin_dir : FPath) :
    Except RegistryError PluginInfo × PluginRegistry :=
  let plugin_id := manifest.id
  if (r.entries.lookup plugin_id).isSome then
    (.error (.pluginExists plugin_id), r)
  else
    let entry : PluginEntry :=
      { manifest := manifest, dir := plugin_dir,
        lib_path := plugin_dir ++ [manifest.main],
        enabled := false, config := Json.obj [] }
    let r' := save_state { r with entries := (plugin_id, entry) :: r.entries }
    (.ok entry.to_info, r')

/-- `PluginRegistry::unregister`. -/
def unregister (r : PluginRegistry) (plugin_id : String) :
    Except RegistryError Unit × PluginRegistry :=
  if (r.entries.lookup plugin_id).isSome then
    (.ok (), save_state { r with entries := eraseKey plugin_id r.entries })
  else
    (.error (.pluginNotFound plugin_id), r)

/-- `PluginRegistry::get` (the entry is returned by value in the model). -/
def get (r : PluginRegistry) (plugin_id : String) : Except RegistryError PluginEntry :=
  match r.entries.lookup plugin_id with
  | some e => .ok e
  | none => .error (.pluginNotFound plugin_id)

/-- `PluginRegistry::set_enabled`. -/
def set_enabled (r : PluginRegistry) (plugin_id : String) (enabled : Bool) :
    Except RegistryError Unit × PluginRegistry :=
  if (r.entries.lookup plugin_id).isSome then
    (.ok (), save_state
      { r with entries := updateVal plugin_id (fun e => { e with enabled := enabled }) r.entries })
  else
    (.error (.pluginNotFound plugin_id), r)

/-- `PluginRegistry::set_config`. -/
def set_config (r : PluginRegistry) (plugin_id : String) (config : Json) :
    Except RegistryError Unit × PluginRegistry :=
  if (r.entries.lookup plugin_id).isSome then
    (.ok (), save_state
      { r with entries := updateVal plugin_id (fun e => { e with config := config }) r.entries })
  else
    (.error (.pluginNotFound plugin_id), r)

/-- `PluginRegistry::list`. -/
def list (r : PluginRegistry) : List PluginInfo :=
  r.entries.map (fun p => p.2.to_info)

/-- `PluginRegistry::enabled_plugins`. -/
def enabled_plugins (r : PluginRegistry) : List PluginEntry :=
  (r.entries.map Prod.snd).filter (fun e => e.enabled)

/-- `PluginRegistry::exists` (`exists` is reserved in Lean). -/
def exists' (r : PluginRegistry) (plugin_id : String) : Bool :=
  (r.entries.lookup plugin_id).isSome

/-- `PluginRegistry::refresh`: clear the in-memory map and re-scan. -/
def refresh (r : PluginRegistry) (fs : FS) : PluginRegistry :=
  scanPlugins { r with entries := [] } fs

end PluginRegistry

/-! ### Manager (manager.rs) -/

inductive ManagerError where
  | registry (e : RegistryError)
  | loader (e : LoaderError)
  | io (msg : String)
  | zip (msg : String)
  | json (msg : String)
  | invalidPackage (msg : String)
  | pluginNotEnabled (id : String)
  | libraryNotFound (path : FPath)

/-- An installable plugin package.  Extraction mechanics of the zip archive
are out of scope of the specification (§1): the model carries the manifest
found among the archive entries (`none` when no `manifest.json` exists, which
makes `install` fail with `InvalidPackage`) and the relative paths of the
regular files the extraction deposits under the new plugin directory. -/
structure Package where
  manifest : Option PluginManifest
  files : List FPath

/-- The manager together with the ambient filesystem slice it manipulates.
`PluginManager` in the source owns exactly `loader`, `registry` and `hooks`. -/
structure MState where
  loader : PluginLoader
  registry : PluginRegistry
  hooks : HookDispatcher
  fs : FS

namespace PluginManager

/-- `PluginManager::enable`: look up the entry, require the library file to
exist, load, build the context (creating the data directory), initialize,
register the manifest's hooks, flip `enabled` to true.  Note that a failing
initialize returns early with the module still loaded. -/
def enable (env : Env) (s : MState) (plugin_id : String) :
    Except ManagerError Unit × MState :=
  match s.registry.get plugin_id with
  | .error e => (.error (.registry e), s)
  | .ok entry =>
    if ¬ (s.fs.files.contains entry.lib_path) then
      (.error (.libraryNotFound entry.lib_path), s)
    else
      match PluginLoader.load env s.loader plugin_id entry.lib_path with
      | (.error e, l) => (.error (.loader e), { s with loader := l })
      | (.ok _, l) =>
        let ctx : PluginContext :=
          { plugin_id := plugin_id, data_dir := entry.dir ++ ["data"],
            config := entry.config }
        match PluginLoader.initPlugin l plugin_id ctx with
        | .error e => (.error (.loader e), { s with loader := l })
        | .ok _ =>
          let hooks := HookDispatcher.register_many s.hooks entry.manifest.hooks plugin_id
          match PluginRegistry.set_enabled s.registry plugin_id true with
          | (.error e, r) => (.error (.registry e), { s with loader := l, hooks := hooks, registry := r })
          | (.ok _, r) => (.ok (), { s with loader := l, hooks := hooks, registry := r })

/-- `PluginManager::disable`: unregister all hooks, then if loaded shutdown
and unload (a failing shutdown returns early), then flip `enabled` to false. -/
def disable (s : MState) (plugin_id : String) :
    Except ManagerError Unit × MState :=
  let s := { s with hooks := s.hooks.unregister_all plugin_id }
  if s.loader.is_loaded plugin_id then
    match PluginLoader.shutdown s.loader plugin_id with
    | .error e => (.error (.loader e), s)
    | .ok _ =>
      match PluginLoader.unload s.loader plugin_id with
      | (.error e, l) => (.error (.loader e), { s with loader := l })
      | (.ok _, l) =>
        match PluginRegistry.set_enabled s.registry plugin_id false with
        | (.error e, r) => (.error (.registry e), { s with loader := l, registry := r })
        | (.ok _, r) => (.ok (), { s with loader := l, registry := r })
  else
    match PluginRegistry.set_enabled s.registry plugin_id false with
    | (.error e, r) => (.error (.registry e), { s with registry := r })
    | (.ok _, r) => (.ok (), { s with registry := r })

/-- `fs::remove_dir_all(plugin_dir)` on the model filesystem: the directory
and every file under it disappear. -/
def removeDirAll (fs : FS) (plugin_dir : FPath) : FS :=
  { dirs := eraseKey plugin_dir fs.dirs,
    files := fs.files.filter (fun f => !(plugin_dir.isPrefixOf f)) }

/-- `PluginManager::uninstall`: best-effort disable (errors ignored), then
unregister from the registry, then recursively delete the plugin directory. -/
def uninstall (s : MState) (plugin_id : String) :
    Except ManagerError Unit × MState :=
  let s := (disable s plugin_id).2
  match s.registry.get plugin_id with
  | .error e => (.error (.registry e), s)
  | .ok entry =>
    let plugin_dir := entry.dir
    match PluginRegistry.unregister s.registry plugin_id with
    | (.error e, r) => (.error (.registry e), { s with registry := r })
    | (.ok _, r) =>
      let s := { s with registry := r }
      if (s.fs.dirs.lookup plugin_dir).isSome then
        (.ok (), { s with fs := removeDirAll s.fs plugin_dir })
      else
        (.ok (), s)

/-- `PluginManager::install`: read the manifest out of the archive, uninstall
a previously installed copy, create the plugin directory named by the
manifest id, extract the package contents into it, and register.  The
extraction is modelled as depositing the package's manifest as the
directory's `manifest.json` together with the package's files. -/
def install (s : MState) (pkg : Package) :
    Except ManagerError PluginInfo × MState :=
  match pkg.manifest with
  | none => (.error (.invalidPackage "manifest.json"), s)
  | some manifest =>
    let plugin_id := manifest.id
    match (if s.registry.exists' plugin_id then uninstall s plugin_id else (.ok (), s)) with
    | (.error e, s) => (.error e, s)
    | (.ok _, s) =>
      let plugin_dir := s.registry.plugins_dir ++ [plugin_id]
      let fs : FS :=
        { dirs := insertKey plugin_dir (some manifest) s.fs.dirs,
          files := pkg.files.map (fun f => plugin_dir ++ f) ++ s.fs.files }
      let s := { s with fs := fs }
      match PluginRegistry.register s.registry manifest plugin_dir with
      | (.error e, r) => (.error (.registry e), { s with registry := r })
      | (.ok info, r) => (.ok info, { s with registry := r })

/-- `PluginManager::list`. -/
def list (s : MState) : List PluginInfo := s.registry.list

/-- `PluginManager::get_all_tools`. -/
def get_all_tools (s : MState) : List ToolDefinition := s.loader.get_all_tools

/-- `PluginManager::execute_tool`: fail fast when the loader does not hold
the plugin, otherwise delegate.  Takes `&self`: no state change. -/
def execute_tool (s : MState) (plugin_id : String) (call : ToolCall) :
    Except ManagerError ToolResult :=
  if ¬ (s.loader.is_loaded plugin_id) then
    .error (.pluginNotEnabled plugin_id)
  else
    match s.loader.execute_tool plugin_id call with
    | .error e => .error (.loader e)
    | .ok result => .ok result

/-- The `for plugin_id in listeners` loop of `PluginManager::trigger_hook`:
push a `HookResult` exactly for the `Ok(Some(response))` outcomes. -/
def triggerLoop (l : PluginLoader) (hook_name : String) (data : Json) :
    List String → List HookResult
  | [] => []
  | plugin_id :: rest =>
    match l.trigger_hook plugin_id hook_name data with
    | .ok (some response) =>
      ⟨plugin_id, response⟩ :: triggerLoop l hook_name data rest
    | _ => triggerLoop l hook_name data rest

/-- `PluginManager::trigger_hook`: collect the non-null responses of the
current subscribers.  Mutates nothing in the model. -/
def trigger_hook (s : MState) (hook_name : String) (data : Json) : List HookResult :=
  triggerLoop s.loader hook_name data (s.hooks.get_listeners hook_name)

/-- `PluginManager::set_config`. -/
def set_config (s : MState) (plugin_id : String) (config : Json) :
    Except ManagerError Unit × MState :=
  match PluginRegistry.set_config s.registry plugin_id config with
  | (.error e, r) => (.error (.registry e), { s with registry := r })
  | (.ok _, r) => (.ok (), { s with registry := r })

/-- `PluginManager::refresh`. -/
def refresh (s : MState) : Except ManagerError Unit × MState :=
  (.ok (), { s with registry := s.registry.refresh s.fs })

/-- The loop body of `restore_enabled_plugins`: enable, and on failure force
the registry flag back to disabled (ignoring that call's own error). -/
def restoreLoop (env : Env) : List String → MState → MState
  | [], s => s
  | plugin_id :: rest, s =>
    match enable env s plugin_id with
    | (.ok _, s) => restoreLoop env rest s
    | (.error _, s) =>
      restoreLoop env rest
        { s with registry := (PluginRegistry.set_enabled s.registry plugin_id false).2 }

/-- The state `PluginManager::new` builds before restoring plugins: a fresh
loader and dispatcher and the scanned registry. -/
def preState (plugins_dir : FPath) (ondisk : RegistryData) (fs : FS) : MState :=
  { loader := ⟨[]⟩, registry := PluginRegistry.new plugins_dir ondisk fs,
    hooks := ⟨[], []⟩, fs := fs }

/-- `PluginManager::new`: construct the registry from disk, then re-enable
every plugin the persisted state marks enabled. -/
def mkManager (env : Env) (plugins_dir : FPath) (ondisk : RegistryData) (fs : FS) :
    MState :=
  let s := preState plugins_dir ondisk fs
  restoreLoop env ((s.registry.enabled_plugins).map (fun e => e.manifest.id)) s

end PluginManager

/-- The public mutating operations of the manager (claim C1's operation list;
`new/restore` is covered separately by `PluginManager.mkManager`).
`execute_tool` and `trigger_hook` take `&self` / mutate nothing. -/
inductive MOp where
  | installOp (pkg : Package)
  | enableOp (plugin_id : String)
  | disableOp (plugin_id : String)
  | uninstallOp (plugin_id : String)
  | executeToolOp (plugin_id : String) (call : ToolCall)
  | triggerHookOp (hook_name : String) (data : Json)
  | setConfigOp (plugin_id : String) (config : Json)
  | refreshOp

/-- The state after running one public Manager operation. -/
def applyOp (env : Env) (s : MState) : MOp → MState
  | .installOp pkg => (PluginManager.install s pkg).2
  | .enableOp id => (PluginManager.enable env s id).2
  | .disableOp id => (PluginManager.disable s id).2
  | .uninstallOp id => (PluginManager.uninstall s id).2
  | .executeToolOp _ _ => s
  | .triggerHookOp _ _ => s
  | .setConfigOp id cfg => (PluginManager.set_config s id cfg).2
  | .refreshOp => (PluginManager.refresh s).2

/-! ### Observations and invariants -/

/-- Whether the Registry reports `plugin_id` as enabled (an unregistered id is
not enabled). -/
def registryEnabled (s : MState) (plugin_id : String) : Bool :=
  ((s.registry.entries.lookup plugin_id).map (fun e => e.enabled)).getD false

/-- Claim C1's invariant: the Registry reports an id enabled iff the Loader
holds a `LoadedPlugin` for it. -/
def enabledIffLoaded (s : MState) : Prop :=
  ∀ plugin_id, registryEnabled s plugin_id = s.loader.is_loaded plugin_id

/-- The state file agrees (pointwise) with what `save_state` would write. -/
def savedMatches (s : MState) : Prop :=
  ∀ plugin_id, s.registry.saved.plugins.lookup plugin_id =
    ((s.registry.entries.lookup plugin_id).map (fun e => PluginState.mk e.enabled e.config))

/-- Registry entries and plugin directories agree: every registered id owns
the directory `plugins_dir/<id>` whose `manifest.json` is its manifest, and
every directory carrying a manifest belongs to a registered id. -/
def dirsOk (s : MState) : Prop :=
  (∀ plugin_id e, s.registry.entries.lookup plugin_id = some e →
      e.dir = s.registry.plugins_dir ++ [plugin_id] ∧
      s.fs.dirs.lookup e.dir = some (some e.manifest) ∧
      e.manifest.id = plugin_id) ∧
  (∀ dv ∈ s.fs.dirs, ∀ mf, dv.2 = some mf →
      ∃ e, s.registry.entries.lookup mf.id = some e ∧ e.dir = dv.1)

/-- Every plugin the Loader holds reports a clean shutdown status. -/
def loaderGood (s : MState) : Prop :=
  ∀ p ∈ s.loader.plugins, p.2.shutdown = (0 : Int)

/-- `HashMap` key uniqueness for the three association lists in the state. -/
def nodupsOk (s : MState) : Prop :=
  keysNodup s.registry.entries ∧ keysNodup s.fs.dirs ∧ keysNodup s.loader.plugins

/-- The inductive consistency invariant of a manager state. -/
def stateConsistent (s : MState) : Prop :=
  enabledIffLoaded s ∧ savedMatches s ∧ dirsOk s ∧ loaderGood s ∧ nodupsOk s

/-- A module that behaves: exports all seven entry points, initializes with
status 0 for any context, and shuts down with status 0. -/
def goodModule (m : PluginModule) : Prop :=
  (∀ sym ∈ requiredSymbols, m.hasSymbol sym = true) ∧
  (∀ ctx, m.ffi.init ctx = 0) ∧ m.ffi.shutdown = (0 : Int)

/-- Every library open attempt succeeds and yields a well-behaved module. -/
def envGood (env : Env) : Prop :=
  ∀ path, ∃ m, env.openLib path = some m ∧ goodModule m

/-- The conditions `PluginManager::new`'s inputs must satisfy: the scanned
pre-restore state has a state file matching its entries, directories agreeing
with its entries, and duplicate-free directory keys. -/
def preOk (plugins_dir : FPath) (ondisk : RegistryData) (fs : FS) : Prop :=
  savedMatches (PluginManager.preState plugins_dir ondisk fs) ∧
  dirsOk (PluginManager.preState plugins_dir ondisk fs) ∧
  keysNodup fs.dirs

/-- The representation invariant of the `HookDispatcher`'s pair of hash maps:
unique keys, duplicate-free `HashSet` buckets, and the forward and reverse
maps mirror each other. -/
def HookDispatcher.WF (d : HookDispatcher) : Prop :=
  keysNodup d.hooks ∧ keysNodup d.plugin_hooks ∧
  (∀ hv ∈ d.hooks, hv.2.Nodup) ∧
  (∀ h p, (∃ ps, d.hooks.lookup h = some ps ∧ p ∈ ps) ↔
          (∃ hs, d.plugin_hooks.lookup p = some hs ∧ h ∈ hs))

/-! ### Concrete instances used in the examples -/

/-- A sample manifest: plugin `p` with library `libp.so`, one hook. -/
def exManifest : PluginManifest :=
  ⟨"p", "P", "1.0.0", "au", "de", "libp.so", none, [], [], ["on_file_open"]⟩

def exPd : FPath := ["plugins"]

def exFS : FS :=
  ⟨[(["plugins", "p"], some exManifest)], [["plugins", "p", "libp.so"]]⟩

/-- The entry the registry scan builds for `exManifest` in `exFS`. -/
def exEntry : PluginEntry :=
  ⟨exManifest, ["plugins", "p"], ["plugins", "p", "libp.so"], false, Json.obj []⟩

/-- A plugin whose every entry point behaves. -/
def exGoodFFI : PluginFFI :=
  ⟨fun _ => 0, 0, .null, fun _ => .null, fun _ _ => .null, none⟩

/-- A plugin whose initialize entry point returns status 1. -/
def exInitFailFFI : PluginFFI :=
  ⟨fun _ => 1, 0, .null, fun _ => .null, fun _ _ => .null, some "init failed"⟩

/-- A plugin whose shutdown entry point returns status 1. -/
def exShutFailFFI : PluginFFI :=
  ⟨fun _ => 0, 1, .null, fun _ => .null, fun _ _ => .null, some "shutdown failed"⟩

def exGoodModule : PluginModule := ⟨fun _ => true, exGoodFFI⟩

def exEnvGood : Env := ⟨fun _ => some exGoodModule⟩

def exEnvInitFail : Env := ⟨fun _ => some ⟨fun _ => true, exInitFailFFI⟩⟩

def exEnvShutFail : Env := ⟨fun _ => some ⟨fun _ => true, exShutFailFFI⟩⟩

/-- An env where every library open fails. -/
def exEnvOpenFail : Env := ⟨fun _ => none⟩

/-- A freshly constructed manager over `exFS` (nothing persisted as enabled). -/
def exStart (env : Env) : MState := PluginManager.mkManager env exPd ⟨[]⟩ exFS

/-- The state after enabling `p` under an env whose initialize fails. -/
def exStateInitFail : MState :=
  (PluginManager.enable exEnvInitFail (exStart exEnvInitFail) "p").2

/-- The state after enabling `p` under an env whose shutdown fails. -/
def exStateShutFail : MState :=
  (PluginManager.enable exEnvShutFail (exStart exEnvShutFail) "p").2

/-- The state after enabling `p` under a fully well-behaved env. -/
def exStateGood : MState :=
  (PluginManager.enable exEnvGood (exStart exEnvGood) "p").2

/-- A manager state with nothing installed or loaded. -/
def exEmptyState : MState := ⟨⟨[]⟩, ⟨exPd, [], ⟨[]⟩⟩, ⟨[], []⟩, ⟨[], []⟩⟩

/-- The registry entry for `p` once it has been enabled. -/
def exEntryEnabled : PluginEntry :=
  ⟨exManifest, ["plugins", "p"], ["plugins", "p", "libp.so"], true, Json.obj []⟩

/-- A manager state whose dispatcher has one subscription: `p` listens to
`on_file_open`. -/
def exDispState : MState :=
  ⟨⟨[]⟩, ⟨exPd, [], ⟨[]⟩⟩, ⟨[("on_file_open", ["p"])], [("p", ["on_file_open"])]⟩,
   ⟨[], []⟩⟩

/-! ### Association-list lemmas -/

theorem lookup_cons [BEq κ] [LawfulBEq κ] [DecidableEq κ] (k a : κ) (v : β)
    (l : List (κ × β)) :
    List.lookup k ((a, v) :: l) = if k = a then some v else List.lookup k l := by
  simp only [List.lookup]
  by_cases hk : k = a
  · simp [hk]
  · simp [hk, show (k == a) = false by simpa using hk]

theorem keysNodup_cons [BEq κ] {a : κ} {v : β} {rest : List (κ × β)}
    (h : keysNodup ((a, v) :: rest)) : a ∉ rest.map Prod.fst ∧ keysNodup rest :=
  List.nodup_cons.mp h

theorem lookup_mapVal [BEq κ] [LawfulBEq κ] [DecidableEq κ] (k id : κ)
    (f : β → β) (l : List (κ × β)) :
    List.lookup k (l.map (fun p => if p.1 == id then (p.1, f p.2) else p)) =
      if k = id then (List.lookup id l).map f else List.lookup k l := by
  induction l with
  | nil => by_cases hk : k = id <;> simp [List.lookup, hk]
  | cons p rest ih =>
    obtain ⟨a, w⟩ := p
    simp only [List.map_cons]
    by_cases hak : a = id
    · subst hak
      simp only [beq_self_eq_true, if_true]
      simp only [lookup_cons]
      by_cases hk : k = a
      · simp [hk]
      · simp only [beq_iff_eq] at ih ⊢
        simp [hk, ih]
    · have hbeq : (a == id) = false := by simpa using hak
      simp only [hbeq, Bool.false_eq_true, if_false]
      simp only [lookup_cons]
      by_cases hk : k = a
      · have hkid : ¬ k = id := fun hh => hak (hk ▸ hh)
        simp [hk, hkid, hak]
      · simp only [beq_iff_eq] at ih ⊢
        simp [hk, ih, Ne.symm hak]

theorem lookup_updateVal [BEq κ] [LawfulBEq κ] [DecidableEq κ] (k id : κ)
    (f : β → β) (l : List (κ × β)) :
    List.lookup k (updateVal id f l) =
      if k = id then (List.lookup id l).map f else List.lookup k l := by
  unfold updateVal
  exact lookup_mapVal k id f l

theorem lookup_eraseKey_ne [BEq κ] [LawfulBEq κ] [DecidableEq κ] (k id : κ)
    (l : List (κ × β)) (h : k ≠ id) :
    List.lookup k (eraseKey id l) = List.lookup k l := by
  induction l with
  | nil => simp [eraseKey]
  | cons p rest ih =>
    obtain ⟨a, v⟩ := p
    by_cases hak : a = id
    · subst hak
      simp only [eraseKey, List.eraseP_cons, beq_self_eq_true, cond_true]
      rw [lookup_cons, if_neg h]
    · have hbeq : (a == id) = false := by simpa using hak
      simp only [eraseKey, List.eraseP_cons, hbeq, cond_false]
      rw [lookup_cons, lookup_cons]
      by_cases hk : k = a
      · simp [hk]
      · rw [if_neg hk, if_neg hk]
        simpa [eraseKey] using ih

theorem mem_of_lookup_some [BEq κ] [LawfulBEq κ] [DecidableEq κ] {k : κ} {v : β}
    {l : List (κ × β)} (h : List.lookup k l = some v) : (k, v) ∈ l := by
  induction l with
  | nil => simp [List.lookup] at h
  | cons p rest ih =>
    obtain ⟨a, w⟩ := p
    rw [lookup_cons] at h
    by_cases hk : k = a
    · rw [if_pos hk] at h
      injection h with h
      subst hk; subst h
      exact List.mem_cons_self _ _
    · rw [if_neg hk] at h
      exact List.mem_cons_of_mem _ (ih h)

theorem lookup_isSome_iff_mem_keys [BEq κ] [LawfulBEq κ] [DecidableEq κ] (k : κ)
    (l : List (κ × β)) :
    (List.lookup k l).isSome = true ↔ k ∈ l.map Prod.fst := by
  induction l with
  | nil => simp [List.lookup]
  | cons p rest ih =>
    obtain ⟨a, v⟩ := p
    rw [lookup_cons]
    by_cases hk : k = a
    · subst hk; simp
    · simp [hk, ih]

theorem lookup_eraseKey_self [BEq κ] [LawfulBEq κ] [DecidableEq κ] (id : κ)
    (l : List (κ × β)) (h : keysNodup l) :
    List.lookup id (eraseKey id l) = none := by
  induction l with
  | nil => simp [eraseKey]
  | cons p rest ih =>
    obtain ⟨a, v⟩ := p
    have hcons := keysNodup_cons h
    by_cases hak : a = id
    · subst hak
      simp only [eraseKey, List.eraseP_cons, beq_self_eq_true, cond_true]
      cases hcase : List.lookup a rest with
      | none => rfl
      | some w =>
        exact absurd ((lookup_isSome_iff_mem_keys a rest).mp (by simp [hcase]))
          hcons.1
    · have hbeq : (a == id) = false := by simpa using hak
      simp only [eraseKey, List.eraseP_cons, hbeq, cond_false]
      rw [lookup_cons, if_neg (fun hh => hak hh.symm)]
      simpa [eraseKey] using ih hcons.2

theorem map_fst_updateVal [BEq κ] [LawfulBEq κ] [DecidableEq κ] (id : κ) (f : β → β)
    (l : List (κ × β)) :
    (updateVal id f l).map Prod.fst = l.map Prod.fst := by
  induction l with
  | nil => rfl
  | cons p rest ih =>
    obtain ⟨a, v⟩ := p
    by_cases hak : a = id <;> simp_all [updateVal]

theorem keysNodup_updateVal [BEq κ] [LawfulBEq κ] [DecidableEq κ] (id : κ)
    (f : β → β) (l : List (κ × β)) (h : keysNodup l) :
    keysNodup (updateVal id f l) := by
  unfold keysNodup
  rw [map_fst_updateVal]
  exact h

theorem keysNodup_eraseKey [BEq κ] [LawfulBEq κ] (id : κ) (l : List (κ × β))
    (h : keysNodup l) : keysNodup (eraseKey id l) := by
  unfold keysNodup at *
  exact h.sublist ((List.eraseP_sublist _).map _)

theorem mem_eraseKey_ne [BEq κ] [LawfulBEq κ] [DecidableEq κ] {dv : κ × β} {id : κ}
    {l : List (κ × β)} (h : keysNodup l) (hmem : dv ∈ eraseKey id l) :
    dv ∈ l ∧ dv.1 ≠ id := by
  have hsub : dv ∈ l := (List.eraseP_sublist l).mem hmem
  refine ⟨hsub, fun hid => ?_⟩
  subst hid
  have hiss : (List.lookup dv.1 (eraseKey dv.1 l)).isSome = true := by
    rw [lookup_isSome_iff_mem_keys]
    exact List.mem_map_of_mem Prod.fst hmem
  rw [lookup_eraseKey_self dv.1 l h] at hiss
  simp at hiss

theorem lookup_overwriteVal [BEq κ] [LawfulBEq κ] [DecidableEq κ] (k id : κ)
    (v : β) (l : List (κ × β)) :
    List.lookup k (l.map (fun p => if p.1 == id then (id, v) else p)) =
      if k = id then (List.lookup id l).map (fun _ => v) else List.lookup k l := by
  induction l with
  | nil => by_cases hk : k = id <;> simp [List.lookup, hk]
  | cons p rest ih =>
    obtain ⟨a, w⟩ := p
    simp only [List.map_cons]
    by_cases hak : a = id
    · subst hak
      simp only [beq_self_eq_true, if_true]
      simp only [lookup_cons]
      by_cases hk : k = a
      · simp [hk]
      · simp only [beq_iff_eq] at ih ⊢
        simp [hk, ih]
    · have hbeq : (a == id) = false := by simpa using hak
      simp only [hbeq, Bool.false_eq_true, if_false]
      simp only [lookup_cons]
      by_cases hk : k = a
      · have hkid : ¬ k = id := fun hh => hak (hk ▸ hh)
        simp [hk, hkid, hak]
      · simp only [beq_iff_eq] at ih ⊢
        simp [hk, ih, Ne.symm hak]

theorem lookup_insertKey [BEq κ] [LawfulBEq κ] [DecidableEq κ] (k id : κ) (v : β)
    (l : List (κ × β)) :
    List.lookup k (insertKey id v l) =
      if k = id then some v else List.lookup k l := by
  unfold insertKey
  by_cases hpres : (List.lookup id l).isSome = true
  · rw [if_pos hpres, lookup_overwriteVal]
    by_cases hk : k = id
    · rw [if_pos hk, if_pos hk]
      rcases Option.isSome_iff_exists.mp hpres with ⟨w, hw⟩
      rw [hw]
      rfl
    · rw [if_neg hk, if_neg hk]
  · rw [if_neg hpres, lookup_cons]

theorem mem_insertKey [BEq κ] [LawfulBEq κ] [DecidableEq κ] {dv : κ × β} {id : κ}
    {v : β} {l : List (κ × β)} (h : dv ∈ insertKey id v l) :
    dv = (id, v) ∨ (dv ∈ l ∧ dv.1 ≠ id) := by
  unfold insertKey at h
  by_cases hpres : (List.lookup id l).isSome = true
  · rw [if_pos hpres] at h
    rcases List.mem_map.mp h with ⟨p, hp, hmap⟩
    by_cases hpid : p.1 = id
    · left
      rw [← hmap]
      simp [hpid]
    · right
      rw [← hmap]
      have hbeq : (p.1 == id) = false := by simpa using hpid
      simp only [hbeq, Bool.false_eq_true, if_neg, not_false_eq_true]
      exact ⟨hp, hpid⟩
  · rw [if_neg hpres] at h
    rcases List.mem_cons.mp h with h | h
    · left; exact h
    · by_cases hpid : dv.1 = id
      · exfalso
        apply hpres
        rw [lookup_isSome_iff_mem_keys, ← hpid]
        exact List.mem_map_of_mem Prod.fst h
      · right; exact ⟨h, hpid⟩

theorem map_fst_insertKey_of_present [BEq κ] [LawfulBEq κ] [DecidableEq κ] (id : κ)
    (v : β) (l : List (κ × β)) (h : (List.lookup id l).isSome = true) :
    (insertKey id v l).map Prod.fst = l.map Prod.fst := by
  unfold insertKey
  rw [if_pos h]
  clear h
  induction l with
  | nil => rfl
  | cons p rest ih =>
    obtain ⟨a, w⟩ := p
    by_cases hak : a = id <;> simp_all

theorem keysNodup_insertKey [BEq κ] [LawfulBEq κ] [DecidableEq κ] (id : κ) (v : β)
    (l : List (κ × β)) (h : keysNodup l) : keysNodup (insertKey id v l) := by
  by_cases hpres : (List.lookup id l).isSome = true
  · unfold keysNodup
    rw [map_fst_insertKey_of_present id v l hpres]
    exact h
  · unfold insertKey
    rw [if_neg hpres]
    unfold keysNodup
    rw [List.map_cons]
    refine List.nodup_cons.mpr ⟨?_, h⟩
    intro hmem
    exact hpres ((lookup_isSome_iff_mem_keys id l).mpr hmem)

theorem mem_snd_of_lookup_some [BEq κ] [LawfulBEq κ] [DecidableEq κ] {k : κ} {v : β}
    {l : List (κ × β)} (h : List.lookup k l = some v) : v ∈ l.map Prod.snd :=
  List.mem_map_of_mem Prod.snd (mem_of_lookup_some h)

theorem lookup_of_mem_nodup [BEq κ] [LawfulBEq κ] [DecidableEq κ] {k : κ} {v : β}
    {l : List (κ × β)} (h : keysNodup l) (hmem : (k, v) ∈ l) :
    List.lookup k l = some v := by
  induction l with
  | nil => simp at hmem
  | cons p rest ih =>
    obtain ⟨a, w⟩ := p
    have hcons := keysNodup_cons h
    rcases List.mem_cons.mp hmem with heq | hmem'
    · injection heq with h1 h2
      subst h1; subst h2
      rw [lookup_cons, if_pos rfl]
    · by_cases hk : k = a
      · subst hk
        exact absurd (List.mem_map_of_mem Prod.fst hmem') hcons.1
      · rw [lookup_cons, if_neg hk]
        exact ih hcons.2 hmem'

/-! ### Operation characterizations -/

theorem deriveData_lookup (entries : List (String × PluginEntry)) (k : String) :
    (PluginRegistry.deriveData entries).plugins.lookup k =
      (entries.lookup k).map (fun e => PluginState.mk e.enabled e.config) := by
  induction entries with
  | nil => simp [PluginRegistry.deriveData, List.lookup]
  | cons p rest ih =>
    obtain ⟨a, e⟩ := p
    simp only [PluginRegistry.deriveData, List.map_cons] at ih ⊢
    rw [lookup_cons, lookup_cons]
    by_cases hk : k = a
    · simp [hk]
    · simp only [if_neg hk]
      exact ih

theorem set_enabled_of_present (r : PluginRegistry) (plugin_id : String) (b : Bool)
    (h : (r.entries.lookup plugin_id).isSome = true) :
    PluginRegistry.set_enabled r plugin_id b =
      (.ok (), PluginRegistry.save_state
        { r with entries := updateVal plugin_id (fun e => { e with enabled := b }) r.entries }) := by
  unfold PluginRegistry.set_enabled
  rw [if_pos h]

theorem set_enabled_of_absent (r : PluginRegistry) (plugin_id : String) (b : Bool)
    (h : ¬ (r.entries.lookup plugin_id).isSome = true) :
    PluginRegistry.set_enabled r plugin_id b = (.error (.pluginNotFound plugin_id), r) := by
  unfold PluginRegistry.set_enabled
  rw [if_neg h]

theorem unregister_of_present (r : PluginRegistry) (plugin_id : String)
    (h : (r.entries.lookup plugin_id).isSome = true) :
    PluginRegistry.unregister r plugin_id =
      (.ok (), PluginRegistry.save_state { r with entries := eraseKey plugin_id r.entries }) := by
  unfold PluginRegistry.unregister
  rw [if_pos h]

theorem register_of_absent (r : PluginRegistry) (manifest : PluginManifest)
    (plugin_dir : FPath) (h : ¬ (r.entries.lookup manifest.id).isSome = true) :
    PluginRegistry.register r manifest plugin_dir =
      (.ok (PluginEntry.to_info
        { manifest := manifest, dir := plugin_dir,
          lib_path := plugin_dir ++ [manifest.main],
          enabled := false, config := Json.obj [] }),
       PluginRegistry.save_state
        { r with entries :=
            (manifest.id,
              { manifest := manifest, dir := plugin_dir,
                lib_path := plugin_dir ++ [manifest.main],
                enabled := false, config := Json.obj [] }) :: r.entries }) := by
  unfold PluginRegistry.register
  rw [if_neg h]

theorem get_of_some (r : PluginRegistry) (plugin_id : String) (e : PluginEntry)
    (h : r.entries.lookup plugin_id = some e) :
    PluginRegistry.get r plugin_id = .ok e := by
  unfold PluginRegistry.get
  rw [h]

theorem get_of_none (r : PluginRegistry) (plugin_id : String)
    (h : r.entries.lookup plugin_id = none) :
    PluginRegistry.get r plugin_id = .error (.pluginNotFound plugin_id) := by
  unfold PluginRegistry.get
  rw [h]

theorem shutdown_of_clean (l : PluginLoader) (plugin_id : String) (ffi : PluginFFI)
    (h : l.plugins.lookup plugin_id = some ffi) (h0 : ffi.shutdown = 0) :
    PluginLoader.shutdown l plugin_id = .ok () := by
  unfold PluginLoader.shutdown
  rw [h]
  simp [h0]

theorem unload_of_loaded (l : PluginLoader) (plugin_id : String)
    (h : (l.plugins.lookup plugin_id).isSome = true) :
    PluginLoader.unload l plugin_id = (.ok (), ⟨eraseKey plugin_id l.plugins⟩) := by
  unfold PluginLoader.unload
  rw [if_pos h]

theorem initPlugin_of_zero (l : PluginLoader) (plugin_id : String)
    (ctx : PluginContext) (ffi : PluginFFI) (h : l.plugins.lookup plugin_id = some ffi)
    (h0 : ffi.init ctx = 0) : PluginLoader.initPlugin l plugin_id ctx = .ok () := by
  unfold PluginLoader.initPlugin
  rw [h]
  simp [h0]

theorem load_of_good (env : Env) (l : PluginLoader) (plugin_id : String)
    (lib_path : FPath) (m : PluginModule) (hm : env.openLib lib_path = some m)
    (hsym : ∀ sym ∈ requiredSymbols, m.hasSymbol sym = true) :
    PluginLoader.load env l plugin_id lib_path =
      (.ok (), ⟨(plugin_id, m.ffi) ::
        (if (l.plugins.lookup plugin_id).isSome = true then eraseKey plugin_id l.plugins
         else l.plugins)⟩) := by
  unfold PluginLoader.load
  have hfind : requiredSymbols.find? (fun s => !(m.hasSymbol s)) = none := by
    rw [List.find?_eq_none]
    intro x hx
    simp [hsym x hx]
  by_cases hpres : (l.plugins.lookup plugin_id).isSome = true
  · rw [if_pos hpres, unload_of_loaded l plugin_id hpres, hm]
    simp [hfind, hpres]
  · rw [if_neg hpres, hm]
    simp [hfind, hpres]

theorem registryEnabled_true_isSome {s : MState} {plugin_id : String}
    (h : registryEnabled s plugin_id = true) :
    (s.registry.entries.lookup plugin_id).isSome = true := by
  unfold registryEnabled at h
  cases hc : s.registry.entries.lookup plugin_id with
  | none => rw [hc] at h; simp at h
  | some e => simp

/-! ### Preservation of `stateConsistent` by the public operations -/

theorem lookup_updateFlag_dirs {pd : FPath} {entries : List (String × PluginEntry)}
    {saved : RegistryData} {hks : HookDispatcher} {fs : FS} {plugin_id : String}
    (hdo : dirsOk ⟨⟨[]⟩, ⟨pd, entries, saved⟩, hks, fs⟩) (b : Bool) (k : String)
    (e : PluginEntry)
    (hk : List.lookup k (updateVal plugin_id (fun e => { e with enabled := b }) entries) =
      some e) :
    e.dir = pd ++ [k] ∧ List.lookup e.dir fs.dirs = some (some e.manifest) ∧
      e.manifest.id = k := by
  rw [lookup_updateVal] at hk
  by_cases hkid : k = plugin_id
  · subst hkid
    rw [if_pos rfl] at hk
    cases he0 : List.lookup k entries with
    | none => rw [he0] at hk; simp at hk
    | some e0 =>
      rw [he0] at hk
      injection hk with hk
      have hprops := hdo.1 k e0 he0
      rw [← hk]
      exact hprops
  · rw [if_neg hkid] at hk
    exact hdo.1 k e hk

theorem dirs_updateFlag_entries {pd : FPath} {entries : List (String × PluginEntry)}
    {saved : RegistryData} {hks : HookDispatcher} {fs : FS} {plugin_id : String}
    (hdo : dirsOk ⟨⟨[]⟩, ⟨pd, entries, saved⟩, hks, fs⟩) (b : Bool)
    (dv : FPath × Option PluginManifest) (hdv : dv ∈ fs.dirs) (mf : PluginManifest)
    (hmf : dv.2 = some mf) :
    ∃ e, List.lookup mf.id
        (updateVal plugin_id (fun e => { e with enabled := b }) entries) = some e ∧
      e.dir = dv.1 := by
  rcases hdo.2 dv hdv mf hmf with ⟨e, he, hedir⟩
  rw [lookup_updateVal]
  by_cases hkid : mf.id = plugin_id
  · rw [if_pos hkid, ← hkid, he]
    exact ⟨_, rfl, hedir⟩
  · rw [if_neg hkid]
    exact ⟨e, he, hedir⟩

theorem disable_preserves (s : MState) (plugin_id : String)
    (hc : stateConsistent s) : stateConsistent (PluginManager.disable s plugin_id).2 := by
  obtain ⟨hiff, hsm, hdo, hlg, hnd⟩ := hc
  obtain ⟨hnde, hndd, hndl⟩ := hnd
  obtain ⟨⟨lp⟩, ⟨pd, entries, saved⟩, hks, fs⟩ := s
  have hdo' : dirsOk ⟨⟨[]⟩, ⟨pd, entries, saved⟩, hks, fs⟩ := hdo
  simp only [PluginManager.disable]
  by_cases hld : PluginLoader.is_loaded ⟨lp⟩ plugin_id = true
  · rw [if_pos hld]
    have hld' : (List.lookup plugin_id lp).isSome = true := hld
    rcases Option.isSome_iff_exists.mp hld' with ⟨ffi, hffi⟩
    have hsd : ffi.shutdown = 0 := hlg (plugin_id, ffi) (mem_of_lookup_some hffi)
    rw [shutdown_of_clean ⟨lp⟩ plugin_id ffi hffi hsd]
    rw [unload_of_loaded ⟨lp⟩ plugin_id hld']
    have hreg : (List.lookup plugin_id entries).isSome = true := by
      apply registryEnabled_true_isSome (s := ⟨⟨lp⟩, ⟨pd, entries, saved⟩, hks, fs⟩)
      rw [hiff plugin_id]
      exact hld
    rw [set_enabled_of_present ⟨pd, entries, saved⟩ plugin_id false hreg]
    refine ⟨?_, ?_, ⟨?_, ?_⟩, ?_, ?_, ?_, ?_⟩
    · intro k
      unfold registryEnabled PluginLoader.is_loaded
      simp only [PluginRegistry.save_state]
      rw [lookup_updateVal]
      by_cases hk : k = plugin_id
      · subst hk
        rw [if_pos rfl, lookup_eraseKey_self k lp hndl]
        cases List.lookup k entries <;> simp
      · rw [if_neg hk, lookup_eraseKey_ne k plugin_id lp hk]
        exact hiff k
    · intro k
      simp only [PluginRegistry.save_state]
      rw [deriveData_lookup]
    · intro k e hk
      simp only [PluginRegistry.save_state] at hk ⊢
      exact lookup_updateFlag_dirs hdo' false k e hk
    · intro dv hdv mf hmf
      simp only [PluginRegistry.save_state]
      exact dirs_updateFlag_entries hdo' false dv hdv mf hmf
    · intro p hp
      exact hlg p ((List.eraseP_sublist _).mem hp)
    · exact keysNodup_updateVal plugin_id
        (fun e => { e with enabled := false }) entries hnde
    · exact hndd
    · exact keysNodup_eraseKey _ _ hndl
  · rw [if_neg hld]
    by_cases hreg : (List.lookup plugin_id entries).isSome = true
    · rw [set_enabled_of_present ⟨pd, entries, saved⟩ plugin_id false hreg]
      refine ⟨?_, ?_, ⟨?_, ?_⟩, ?_, ?_, ?_, ?_⟩
      · intro k
        unfold registryEnabled PluginLoader.is_loaded
        simp only [PluginRegistry.save_state]
        rw [lookup_updateVal]
        by_cases hk : k = plugin_id
        · subst hk
          have hnone : List.lookup k lp = none := by
            cases hl : List.lookup k lp with
            | none => rfl
            | some f =>
              exact absurd (by simp [PluginLoader.is_loaded, hl]) hld
          rw [if_pos rfl, hnone]
          cases List.lookup k entries <;> simp
        · rw [if_neg hk]
          exact hiff k
      · intro k
        simp only [PluginRegistry.save_state]
        rw [deriveData_lookup]
      · intro k e hk
        simp only [PluginRegistry.save_state] at hk ⊢
        exact lookup_updateFlag_dirs hdo' false k e hk
      · intro dv hdv mf hmf
        simp only [PluginRegistry.save_state]
        exact dirs_updateFlag_entries hdo' false dv hdv mf hmf
      · exact hlg
      · exact keysNodup_updateVal plugin_id
          (fun e => { e with enabled := false }) entries hnde
      · exact hndd
      · exact hndl
    · rw [set_enabled_of_absent ⟨pd, entries, saved⟩ plugin_id false hreg]
      exact ⟨hiff, hsm, hdo, hlg, hnde, hndd, hndl⟩

theorem enable_final_consistent {lp lif : List (String × PluginFFI)} {pd : FPath}
    {entries : List (String × PluginEntry)} {saved : RegistryData}
    {hks hks' : HookDispatcher} {fs : FS} {plugin_id : String} {ffi : PluginFFI}
    (hiff : enabledIffLoaded ⟨⟨lp⟩, ⟨pd, entries, saved⟩, hks, fs⟩)
    (hdo : dirsOk ⟨⟨lp⟩, ⟨pd, entries, saved⟩, hks, fs⟩)
    (hlg : loaderGood ⟨⟨lp⟩, ⟨pd, entries, saved⟩, hks, fs⟩)
    (hnde : keysNodup entries) (hndd : keysNodup fs.dirs) (hndl : keysNodup lp)
    (hent : (List.lookup plugin_id entries).isSome = true)
    (hffi : ffi.shutdown = 0)
    (hlif_ne : ∀ k, k ≠ plugin_id → List.lookup k lif = List.lookup k lp)
    (hlif_sub : lif.Sublist lp)
    (hlif_self : plugin_id ∉ lif.map Prod.fst) :
    stateConsistent
      ⟨⟨(plugin_id, ffi) :: lif⟩,
       PluginRegistry.save_state
         ⟨pd, updateVal plugin_id (fun e => { e with enabled := true }) entries, saved⟩,
       hks', fs⟩ := by
  have hdo' : dirsOk ⟨⟨[]⟩, ⟨pd, entries, saved⟩, hks, fs⟩ := hdo
  refine ⟨?_, ?_, ⟨?_, ?_⟩, ?_, ?_, ?_, ?_⟩
  · intro k
    unfold registryEnabled PluginLoader.is_loaded
    simp only [PluginRegistry.save_state]
    rw [lookup_updateVal, lookup_cons]
    by_cases hk : k = plugin_id
    · subst hk
      rw [if_pos rfl, if_pos rfl]
      rcases Option.isSome_iff_exists.mp hent with ⟨e, he⟩
      rw [he]
      simp
    · rw [if_neg hk, if_neg hk, hlif_ne k hk]
      exact hiff k
  · intro k
    simp only [PluginRegistry.save_state]
    rw [deriveData_lookup]
  · intro k e hk
    simp only [PluginRegistry.save_state] at hk ⊢
    exact lookup_updateFlag_dirs hdo' true k e hk
  · intro dv hdv mf hmf
    simp only [PluginRegistry.save_state]
    exact dirs_updateFlag_entries hdo' true dv hdv mf hmf
  · intro p hp
    rcases List.mem_cons.mp hp with hp | hp
    · rw [hp]
      exact hffi
    · exact hlg p (hlif_sub.mem hp)
  · exact keysNodup_updateVal plugin_id (fun e => { e with enabled := true }) entries hnde
  · exact hndd
  · exact List.nodup_cons.mpr ⟨hlif_self, hndl.sublist (hlif_sub.map Prod.fst)⟩

theorem enable_preserves (env : Env) (s : MState) (plugin_id : String)
    (hg : envGood env) (hc : stateConsistent s) :
    stateConsistent (PluginManager.enable env s plugin_id).2 := by
  obtain ⟨hiff, hsm, hdo, hlg, hnd⟩ := hc
  obtain ⟨hnde, hndd, hndl⟩ := hnd
  obtain ⟨⟨lp⟩, ⟨pd, entries, saved⟩, hks, fs⟩ := s
  simp only [PluginManager.enable]
  cases hent : List.lookup plugin_id entries with
  | none =>
    rw [get_of_none ⟨pd, entries, saved⟩ plugin_id hent]
    exact ⟨hiff, hsm, hdo, hlg, hnde, hndd, hndl⟩
  | some entry =>
    simp only [get_of_some ⟨pd, entries, saved⟩ plugin_id entry hent]
    by_cases hlib : fs.files.contains entry.lib_path = true
    · rw [if_neg (not_not_intro hlib)]
      rcases hg entry.lib_path with ⟨m, hm, hsym, hinit, hshut⟩
      have hsetp := set_enabled_of_present ⟨pd, entries, saved⟩ plugin_id true
        (by rw [hent]; rfl)
      have hload := load_of_good env ⟨lp⟩ plugin_id entry.lib_path m hm hsym
      by_cases hpl : (List.lookup plugin_id lp).isSome = true
      · rw [if_pos hpl] at hload
        have hinitp : PluginLoader.initPlugin
            ⟨(plugin_id, m.ffi) :: eraseKey plugin_id lp⟩ plugin_id
            ⟨plugin_id, entry.dir ++ ["data"], entry.config⟩ = .ok () :=
          initPlugin_of_zero _ _ _ m.ffi (by rw [lookup_cons, if_pos rfl]) (hinit _)
        simp only [hload, hinitp, hsetp]
        refine enable_final_consistent hiff hdo hlg hnde hndd hndl
          (by rw [hent]; rfl) hshut ?_ ?_ ?_
        · intro k hk
          exact lookup_eraseKey_ne k plugin_id lp hk
        · exact (List.eraseP_sublist lp)
        · intro hmem
          have := (lookup_isSome_iff_mem_keys plugin_id (eraseKey plugin_id lp)).mpr hmem
          rw [lookup_eraseKey_self plugin_id lp hndl] at this
          simp at this
      · rw [if_neg hpl] at hload
        have hinitp : PluginLoader.initPlugin
            ⟨(plugin_id, m.ffi) :: lp⟩ plugin_id
            ⟨plugin_id, entry.dir ++ ["data"], entry.config⟩ = .ok () :=
          initPlugin_of_zero _ _ _ m.ffi (by rw [lookup_cons, if_pos rfl]) (hinit _)
        simp only [hload, hinitp, hsetp]
        refine enable_final_consistent hiff hdo hlg hnde hndd hndl
          (by rw [hent]; rfl) hshut (fun k _ => rfl) (List.Sublist.refl lp) ?_
        intro hmem
        exact hpl ((lookup_isSome_iff_mem_keys plugin_id lp).mpr hmem)
    · rw [if_pos hlib]
      exact ⟨hiff, hsm, hdo, hlg, hnde, hndd, hndl⟩

theorem disable_state (s : MState) (plugin_id : String)
    (hsd : ∀ ffi, s.loader.plugins.lookup plugin_id = some ffi → ffi.shutdown = 0)
    (hndl : keysNodup s.loader.plugins) :
    (PluginManager.disable s plugin_id).2.loader.is_loaded plugin_id = false ∧
    (PluginManager.disable s plugin_id).2.registry.entries.lookup plugin_id =
      (s.registry.entries.lookup plugin_id).map (fun e => { e with enabled := false }) ∧
    (PluginManager.disable s plugin_id).2.fs = s.fs ∧
    (PluginManager.disable s plugin_id).2.registry.plugins_dir = s.registry.plugins_dir ∧
    (∀ k, k ≠ plugin_id → (PluginManager.disable s plugin_id).2.registry.entries.lookup k =
      s.registry.entries.lookup k) ∧
    (keysNodup s.registry.entries →
      keysNodup (PluginManager.disable s plugin_id).2.registry.entries) := by
  obtain ⟨⟨lp⟩, ⟨pd, entries, saved⟩, hks, fs⟩ := s
  simp only [PluginManager.disable]
  by_cases hld : PluginLoader.is_loaded ⟨lp⟩ plugin_id = true
  · rw [if_pos hld]
    have hld' : (List.lookup plugin_id lp).isSome = true := hld
    rcases Option.isSome_iff_exists.mp hld' with ⟨ffi, hffi⟩
    rw [shutdown_of_clean ⟨lp⟩ plugin_id ffi hffi (hsd ffi hffi)]
    rw [unload_of_loaded ⟨lp⟩ plugin_id hld']
    by_cases hreg : (List.lookup plugin_id entries).isSome = true
    · rw [set_enabled_of_present ⟨pd, entries, saved⟩ plugin_id false hreg]
      refine ⟨?_, ?_, rfl, rfl, ?_, ?_⟩
      · unfold PluginLoader.is_loaded
        simp only
        rw [lookup_eraseKey_self plugin_id lp hndl]
        rfl
      · simp only [PluginRegistry.save_state]
        rw [lookup_updateVal, if_pos rfl]
      · intro k hk
        simp only [PluginRegistry.save_state]
        rw [lookup_updateVal, if_neg hk]
      · intro hnde
        exact keysNodup_updateVal plugin_id (fun e => { e with enabled := false })
          entries hnde
    · rw [set_enabled_of_absent ⟨pd, entries, saved⟩ plugin_id false hreg]
      refine ⟨?_, ?_, rfl, rfl, fun k _ => rfl, fun hnde => hnde⟩
      · unfold PluginLoader.is_loaded
        simp only
        rw [lookup_eraseKey_self plugin_id lp hndl]
        rfl
      · simp only
        cases hcase : List.lookup plugin_id entries with
        | none => rfl
        | some e => exact absurd (by simp [hcase]) hreg
  · rw [if_neg hld]
    have hnone : List.lookup plugin_id lp = none := by
      cases hl : List.lookup plugin_id lp with
      | none => rfl
      | some f => exact absurd (by simp [PluginLoader.is_loaded, hl]) hld
    by_cases hreg : (List.lookup plugin_id entries).isSome = true
    · rw [set_enabled_of_present ⟨pd, entries, saved⟩ plugin_id false hreg]
      refine ⟨?_, ?_, rfl, rfl, ?_, ?_⟩
      · unfold PluginLoader.is_loaded
        simp only
        rw [hnone]
        rfl
      · simp only [PluginRegistry.save_state]
        rw [lookup_updateVal, if_pos rfl]
      · intro k hk
        simp only [PluginRegistry.save_state]
        rw [lookup_updateVal, if_neg hk]
      · intro hnde
        exact keysNodup_updateVal plugin_id (fun e => { e with enabled := false })
          entries hnde
    · rw [set_enabled_of_absent ⟨pd, entries, saved⟩ plugin_id false hreg]
      refine ⟨?_, ?_, rfl, rfl, fun k _ => rfl, fun hnde => hnde⟩
      · unfold PluginLoader.is_loaded
        simp only
        rw [hnone]
        rfl
      · simp only
        cases hcase : List.lookup plugin_id entries with
        | none => rfl
        | some e => exact absurd (by simp [hcase]) hreg

theorem path_ne_of_id_ne {pd : FPath} {a b : String} (h : a ≠ b) :
    pd ++ [a] ≠ pd ++ [b] := by
  intro heq
  exact h (by simpa using List.append_cancel_left heq)

theorem uninstall_preserves (s : MState) (plugin_id : String)
    (hc : stateConsistent s) : stateConsistent (PluginManager.uninstall s plugin_id).2 := by
  have hc1 := disable_preserves s plugin_id hc
  have hds := disable_state s plugin_id
    (fun ffi hffi => hc.2.2.2.1 (plugin_id, ffi) (mem_of_lookup_some hffi))
    hc.2.2.2.2.2.2
  simp only [PluginManager.uninstall]
  generalize hgen : (PluginManager.disable s plugin_id).2 = s1 at hds hc1
  obtain ⟨hnl, -, -, -, -, -⟩ := hds
  obtain ⟨hiff, hsm, hdo, hlg, hnd⟩ := hc1
  obtain ⟨hnde, hndd, hndl⟩ := hnd
  obtain ⟨⟨lp1⟩, ⟨pd1, entries1, saved1⟩, hks1, fs1⟩ := s1
  have hdo' : dirsOk ⟨⟨[]⟩, ⟨pd1, entries1, saved1⟩, hks1, fs1⟩ := hdo
  cases hent : List.lookup plugin_id entries1 with
  | none =>
    rw [get_of_none ⟨pd1, entries1, saved1⟩ plugin_id hent]
    exact ⟨hiff, hsm, hdo, hlg, hnde, hndd, hndl⟩
  | some e1 =>
    simp only [get_of_some ⟨pd1, entries1, saved1⟩ plugin_id e1 hent]
    simp only [unregister_of_present ⟨pd1, entries1, saved1⟩ plugin_id (by rw [hent]; rfl)]
    have hprops := hdo'.1 plugin_id e1 hent
    have hloader_none : (List.lookup plugin_id lp1).isSome = false := by
      simpa [PluginLoader.is_loaded] using hnl
    by_cases hdir : (List.lookup e1.dir fs1.dirs).isSome = true
    · rw [if_pos hdir]
      refine ⟨?_, ?_, ⟨?_, ?_⟩, hlg, ?_, ?_, hndl⟩
      · intro k
        unfold registryEnabled PluginLoader.is_loaded
        simp only [PluginRegistry.save_state]
        by_cases hk : k = plugin_id
        · subst hk
          rw [lookup_eraseKey_self k entries1 hnde, hloader_none]
          rfl
        · rw [lookup_eraseKey_ne k plugin_id entries1 hk]
          exact hiff k
      · intro k
        simp only [PluginRegistry.save_state]
        rw [deriveData_lookup]
      · intro k e hk
        simp only [PluginRegistry.save_state, PluginManager.removeDirAll] at hk ⊢
        by_cases hk' : k = plugin_id
        · subst hk'
          rw [lookup_eraseKey_self k entries1 hnde] at hk
          simp at hk
        · rw [lookup_eraseKey_ne k plugin_id entries1 hk'] at hk
          have hpk := hdo'.1 k e hk
          refine ⟨hpk.1, ?_, hpk.2.2⟩
          rw [lookup_eraseKey_ne e.dir e1.dir fs1.dirs ?_]
          · exact hpk.2.1
          · rw [hpk.1, hprops.1]
            exact path_ne_of_id_ne hk'
      · intro dv hdv mf hmf
        simp only [PluginRegistry.save_state, PluginManager.removeDirAll] at hdv ⊢
        rcases mem_eraseKey_ne hndd hdv with ⟨hdv1, hdvne⟩
        rcases hdo'.2 dv hdv1 mf hmf with ⟨e', he', hedir⟩
        by_cases hmid : mf.id = plugin_id
        · exfalso
          rw [hmid, hent] at he'
          injection he' with he'
          exact hdvne (by rw [← hedir, ← he'])
        · rw [lookup_eraseKey_ne mf.id plugin_id entries1 hmid]
          exact ⟨e', he', hedir⟩
      · exact keysNodup_eraseKey plugin_id entries1 hnde
      · exact keysNodup_eraseKey e1.dir fs1.dirs hndd
    · rw [if_neg hdir]
      refine ⟨?_, ?_, ⟨?_, ?_⟩, hlg, ?_, hndd, hndl⟩
      · intro k
        unfold registryEnabled PluginLoader.is_loaded
        simp only [PluginRegistry.save_state]
        by_cases hk : k = plugin_id
        · subst hk
          rw [lookup_eraseKey_self k entries1 hnde, hloader_none]
          rfl
        · rw [lookup_eraseKey_ne k plugin_id entries1 hk]
          exact hiff k
      · intro k
        simp only [PluginRegistry.save_state]
        rw [deriveData_lookup]
      · intro k e hk
        simp only [PluginRegistry.save_state] at hk ⊢
        by_cases hk' : k = plugin_id
        · subst hk'
          rw [lookup_eraseKey_self k entries1 hnde] at hk
          simp at hk
        · rw [lookup_eraseKey_ne k plugin_id entries1 hk'] at hk
          exact hdo'.1 k e hk
      · intro dv hdv mf hmf
        simp only [PluginRegistry.save_state] at hdv ⊢
        rcases hdo'.2 dv hdv mf hmf with ⟨e', he', hedir⟩
        by_cases hmid : mf.id = plugin_id
        · exfalso
          rw [hmid, hent] at he'
          injection he' with he'
          apply hdir
          apply (lookup_isSome_iff_mem_keys e1.dir fs1.dirs).mpr
          rw [he', hedir]
          exact List.mem_map_of_mem Prod.fst hdv
        · rw [lookup_eraseKey_ne mf.id plugin_id entries1 hmid]
          exact ⟨e', he', hedir⟩
      · exact keysNodup_eraseKey plugin_id entries1 hnde

theorem uninstall_ok_unregisters (s : MState) (plugin_id : String)
    (hc : stateConsistent s)
    (hreg : (s.registry.entries.lookup plugin_id).isSome = true) :
    (PluginManager.uninstall s plugin_id).1 = Except.ok () ∧
    (PluginManager.uninstall s plugin_id).2.registry.entries.lookup plugin_id = none := by
  have hc1 := disable_preserves s plugin_id hc
  have hds := disable_state s plugin_id
    (fun ffi hffi => hc.2.2.2.1 (plugin_id, ffi) (mem_of_lookup_some hffi))
    hc.2.2.2.2.2.2
  simp only [PluginManager.uninstall]
  generalize hgen : (PluginManager.disable s plugin_id).2 = s1 at hds hc1
  obtain ⟨-, hkeep, -, -, -, -⟩ := hds
  have hnde1 : keysNodup s1.registry.entries := hc1.2.2.2.2.1
  obtain ⟨⟨lp1⟩, ⟨pd1, entries1, saved1⟩, hks1, fs1⟩ := s1
  rcases Option.isSome_iff_exists.mp hreg with ⟨e0, he0⟩
  have hent : List.lookup plugin_id entries1 = some { e0 with enabled := false } := by
    rw [hkeep, he0]
    rfl
  simp only [get_of_some ⟨pd1, entries1, saved1⟩ plugin_id _ hent]
  simp only [unregister_of_present ⟨pd1, entries1, saved1⟩ plugin_id (by rw [hent]; rfl)]
  by_cases hdir :
      (List.lookup ({ e0 with enabled := false } : PluginEntry).dir fs1.dirs).isSome = true
  · rw [if_pos hdir]
    refine ⟨rfl, ?_⟩
    simp only [PluginRegistry.save_state]
    exact lookup_eraseKey_self plugin_id entries1 hnde1
  · rw [if_neg hdir]
    refine ⟨rfl, ?_⟩
    simp only [PluginRegistry.save_state]
    exact lookup_eraseKey_self plugin_id entries1 hnde1

theorem install_final_consistent {lp1 : List (String × PluginFFI)} {pd1 : FPath}
    {entries1 : List (String × PluginEntry)} {saved1 : RegistryData}
    {hks1 : HookDispatcher} {fs1 : FS} (manifest : PluginManifest)
    (newFiles : List FPath)
    (hc1 : stateConsistent ⟨⟨lp1⟩, ⟨pd1, entries1, saved1⟩, hks1, fs1⟩)
    (hnone : List.lookup manifest.id entries1 = none) :
    stateConsistent
      ⟨⟨lp1⟩,
       PluginRegistry.save_state
         ⟨pd1,
          (manifest.id,
            { manifest := manifest, dir := pd1 ++ [manifest.id],
              lib_path := (pd1 ++ [manifest.id]) ++ [manifest.main],
              enabled := false, config := Json.obj [] }) :: entries1, saved1⟩,
       hks1,
       ⟨insertKey (pd1 ++ [manifest.id]) (some manifest) fs1.dirs,
        newFiles ++ fs1.files⟩⟩ := by
  obtain ⟨hiff, hsm, hdo, hlg, hnd⟩ := hc1
  obtain ⟨hnde, hndd, hndl⟩ := hnd
  have hdo' : dirsOk ⟨⟨[]⟩, ⟨pd1, entries1, saved1⟩, hks1, fs1⟩ := hdo
  refine ⟨?_, ?_, ⟨?_, ?_⟩, hlg, ?_, ?_, hndl⟩
  · intro k
    unfold registryEnabled PluginLoader.is_loaded
    simp only [PluginRegistry.save_state]
    rw [lookup_cons]
    by_cases hk : k = manifest.id
    · rw [if_pos hk]
      have : registryEnabled ⟨⟨lp1⟩, ⟨pd1, entries1, saved1⟩, hks1, fs1⟩ k =
          PluginLoader.is_loaded ⟨lp1⟩ k := hiff k
      unfold registryEnabled PluginLoader.is_loaded at this
      rw [hk, hnone] at this
      simp only [Option.map_none, Option.getD_none] at this
      simp [← this, hk]
    · rw [if_neg hk]
      exact hiff k
  · intro k
    simp only [PluginRegistry.save_state]
    rw [deriveData_lookup]
  · intro k e hk
    simp only [PluginRegistry.save_state] at hk ⊢
    rw [lookup_cons] at hk
    by_cases hk' : k = manifest.id
    · rw [if_pos hk'] at hk
      injection hk with hk
      subst hk
      refine ⟨by rw [hk'], ?_, by rw [hk']⟩
      rw [lookup_insertKey, if_pos rfl]
    · rw [if_neg hk'] at hk
      have hpk := hdo'.1 k e hk
      refine ⟨hpk.1, ?_, hpk.2.2⟩
      rw [lookup_insertKey, if_neg ?_]
      · exact hpk.2.1
      · rw [hpk.1]
        exact path_ne_of_id_ne hk'
  · intro dv hdv mf hmf
    simp only [PluginRegistry.save_state] at hdv ⊢
    rcases mem_insertKey hdv with heq | ⟨hdv1, hdvne⟩
    · rw [heq] at hmf
      injection hmf with hmf
      subst hmf
      refine ⟨{ manifest := manifest, dir := pd1 ++ [manifest.id],
                lib_path := (pd1 ++ [manifest.id]) ++ [manifest.main],
                enabled := false, config := Json.obj [] }, ?_, ?_⟩
      · rw [lookup_cons, if_pos rfl]
      · rw [heq]
    · rcases hdo'.2 dv hdv1 mf hmf with ⟨e', he', hedir⟩
      by_cases hmid : mf.id = manifest.id
      · rw [hmid, hnone] at he'
        exact absurd he' (by simp)
      · rw [lookup_cons, if_neg hmid]
        exact ⟨e', he', hedir⟩
  · refine List.nodup_cons.mpr ⟨?_, hnde⟩
    intro hmem
    have := (lookup_isSome_iff_mem_keys manifest.id entries1).mpr hmem
    rw [hnone] at this
    simp at this
  · exact keysNodup_insertKey (pd1 ++ [manifest.id]) (some manifest) fs1.dirs hndd

theorem install_preserves (s : MState) (pkg : Package)
    (hc : stateConsistent s) : stateConsistent (PluginManager.install s pkg).2 := by
  simp only [PluginManager.install]
  cases hm : pkg.manifest with
  | none => exact hc
  | some manifest =>
    by_cases hex : s.registry.exists' manifest.id = true
    · simp only [hex, if_true]
      have hok := uninstall_ok_unregisters s manifest.id hc hex
      have hc1 := uninstall_preserves s manifest.id hc
      rcases hun : PluginManager.uninstall s manifest.id with ⟨res, s1⟩
      rw [hun] at hok hc1
      obtain ⟨hres, hnone⟩ := hok
      simp only at hres hnone hc1
      subst hres
      obtain ⟨⟨lp1⟩, ⟨pd1, entries1, saved1⟩, hks1, fs1⟩ := s1
      simp only [register_of_absent ⟨pd1, entries1, saved1⟩ manifest
        (pd1 ++ [manifest.id]) (by rw [hnone]; simp)]
      exact install_final_consistent manifest _ hc1 hnone
    · rw [Bool.not_eq_true] at hex
      simp only [hex, Bool.false_eq_true, if_false]
      have hnone : List.lookup manifest.id s.registry.entries = none := by
        cases hl : List.lookup manifest.id s.registry.entries with
        | none => rfl
        | some e => simp [PluginRegistry.exists', hl] at hex
      obtain ⟨⟨lp1⟩, ⟨pd1, entries1, saved1⟩, hks1, fs1⟩ := s
      simp only [register_of_absent ⟨pd1, entries1, saved1⟩ manifest
        (pd1 ++ [manifest.id]) (by rw [hnone]; simp)]
      exact install_final_consistent manifest _ hc hnone

theorem set_config_preserves (s : MState) (plugin_id : String) (config : Json)
    (hc : stateConsistent s) :
    stateConsistent (PluginManager.set_config s plugin_id config).2 := by
  obtain ⟨hiff, hsm, hdo, hlg, hnd⟩ := hc
  obtain ⟨hnde, hndd, hndl⟩ := hnd
  obtain ⟨⟨lp⟩, ⟨pd, entries, saved⟩, hks, fs⟩ := s
  have hdo' : dirsOk ⟨⟨[]⟩, ⟨pd, entries, saved⟩, hks, fs⟩ := hdo
  simp only [PluginManager.set_config]
  by_cases hreg : (List.lookup plugin_id entries).isSome = true
  · unfold PluginRegistry.set_config
    rw [if_pos hreg]
    refine ⟨?_, ?_, ⟨?_, ?_⟩, hlg, ?_, hndd, hndl⟩
    · intro k
      unfold registryEnabled PluginLoader.is_loaded
      simp only [PluginRegistry.save_state]
      rw [lookup_updateVal]
      by_cases hk : k = plugin_id
      · subst hk
        rw [if_pos rfl]
        have := hiff k
        unfold registryEnabled PluginLoader.is_loaded at this
        rw [← this]
        cases List.lookup k entries <;> simp
      · rw [if_neg hk]
        exact hiff k
    · intro k
      simp only [PluginRegistry.save_state]
      rw [deriveData_lookup]
    · intro k e hk
      simp only [PluginRegistry.save_state] at hk ⊢
      rw [lookup_updateVal] at hk
      by_cases hk' : k = plugin_id
      · subst hk'
        rw [if_pos rfl] at hk
        cases he0 : List.lookup k entries with
        | none => rw [he0] at hk; simp at hk
        | some e0 =>
          rw [he0] at hk
          injection hk with hk
          have hprops := hdo'.1 k e0 he0
          rw [← hk]
          exact hprops
      · rw [if_neg hk'] at hk
        exact hdo'.1 k e hk
    · intro dv hdv mf hmf
      simp only [PluginRegistry.save_state]
      rcases hdo'.2 dv hdv mf hmf with ⟨e, he, hedir⟩
      rw [lookup_updateVal]
      by_cases hkid : mf.id = plugin_id
      · rw [if_pos hkid, ← hkid, he]
        exact ⟨_, rfl, hedir⟩
      · rw [if_neg hkid]
        exact ⟨e, he, hedir⟩
    · exact keysNodup_updateVal plugin_id (fun e => { e with config := config })
        entries hnde
  · unfold PluginRegistry.set_config
    rw [if_neg hreg]
    exact ⟨hiff, hsm, hdo, hlg, hnde, hndd, hndl⟩

/-! ### Scan-fold lemmas -/

theorem scanFold_keysNodup (rd : RegistryData) (dirs : List (FPath × Option PluginManifest))
    (acc : List (String × PluginEntry)) (h : keysNodup acc) :
    keysNodup (dirs.foldl (PluginRegistry.scanOne rd) acc) := by
  induction dirs generalizing acc with
  | nil => exact h
  | cons d rest ih =>
    rw [List.foldl_cons]
    apply ih
    unfold PluginRegistry.scanOne
    cases d.2 with
    | none => exact h
    | some mf => exact keysNodup_insertKey _ _ _ h

theorem scanFold_isSome (rd : RegistryData) (dirs : List (FPath × Option PluginManifest))
    (acc : List (String × PluginEntry)) (plugin_id : String) :
    (List.lookup plugin_id (dirs.foldl (PluginRegistry.scanOne rd) acc)).isSome = true ↔
      ((List.lookup plugin_id acc).isSome = true ∨
        ∃ d ∈ dirs, ∃ mf, d.2 = some mf ∧ mf.id = plugin_id) := by
  induction dirs generalizing acc with
  | nil => simp
  | cons d rest ih =>
    rw [List.foldl_cons, ih]
    unfold PluginRegistry.scanOne
    cases hd : d.2 with
    | none =>
      constructor
      · rintro (h | h)
        · exact Or.inl h
        · rcases h with ⟨d', hd', hmf⟩
          exact Or.inr ⟨d', List.mem_cons_of_mem _ hd', hmf⟩
      · rintro (h | ⟨d', hd', mf, hmf, hid⟩)
        · exact Or.inl h
        · rcases List.mem_cons.mp hd' with rfl | hd''
          · rw [hd] at hmf; simp at hmf
          · exact Or.inr ⟨d', hd'', mf, hmf, hid⟩
    | some mf =>
      rw [lookup_insertKey]
      by_cases hk : plugin_id = mf.id
      · simp only [if_pos hk]
        constructor
        · intro _
          exact Or.inr ⟨d, List.mem_cons_self _ _, mf, hd, hk.symm⟩
        · intro _
          simp
      · rw [if_neg hk]
        constructor
        · rintro (h | h)
          · exact Or.inl h
          · rcases h with ⟨d', hd', hmf⟩
            exact Or.inr ⟨d', List.mem_cons_of_mem _ hd', hmf⟩
        · rintro (h | ⟨d', hd', mf', hmf', hid⟩)
          · exact Or.inl h
          · rcases List.mem_cons.mp hd' with rfl | hd''
            · rw [hd] at hmf'
              injection hmf' with hmf'
              exact absurd (hmf' ▸ hid).symm hk
            · exact Or.inr ⟨d', hd'', mf', hmf', hid⟩

theorem scanFold_prop (rd : RegistryData) (dirs : List (FPath × Option PluginManifest))
    (acc : List (String × PluginEntry)) (plugin_id : String) (Q : PluginEntry → Prop)
    (hacc : ∀ e, List.lookup plugin_id acc = some e → Q e)
    (hdirs : ∀ d ∈ dirs, ∀ mf, d.2 = some mf → mf.id = plugin_id →
      Q (PluginRegistry.scanEntry rd d.1 mf)) :
    ∀ e, List.lookup plugin_id (dirs.foldl (PluginRegistry.scanOne rd) acc) = some e →
      Q e := by
  induction dirs generalizing acc with
  | nil => exact hacc
  | cons d rest ih =>
    rw [List.foldl_cons]
    apply ih
    · unfold PluginRegistry.scanOne
      cases hd : d.2 with
      | none => exact hacc
      | some mf =>
        intro e he
        rw [lookup_insertKey] at he
        by_cases hk : plugin_id = mf.id
        · rw [if_pos hk] at he
          injection he with he
          rw [← he]
          exact hdirs d (List.mem_cons_self _ _) mf hd hk.symm
        · rw [if_neg hk] at he
          exact hacc e he
    · intro d' hd' mf hmf hid
      exact hdirs d' (List.mem_cons_of_mem _ hd') mf hmf hid

theorem refresh_preserves (s : MState) (hc : stateConsistent s) :
    stateConsistent (PluginManager.refresh s).2 := by
  obtain ⟨hiff, hsm, hdo, hlg, hnd⟩ := hc
  obtain ⟨hnde, hndd, hndl⟩ := hnd
  obtain ⟨⟨lp⟩, ⟨pd, entries, saved⟩, hks, fs⟩ := s
  have hdo' : dirsOk ⟨⟨[]⟩, ⟨pd, entries, saved⟩, hks, fs⟩ := hdo
  have hcanon : ∀ d ∈ fs.dirs, ∀ mf, d.2 = some mf → d.1 = pd ++ [mf.id] := by
    intro d hd mf hmf
    rcases hdo'.2 d hd mf hmf with ⟨e, he, hedir⟩
    have := (hdo'.1 mf.id e he).1
    rw [← hedir, this]
  have hregdir : ∀ k e0, List.lookup k entries = some e0 →
      (e0.dir, some e0.manifest) ∈ fs.dirs := by
    intro k e0 he0
    have hp := hdo'.1 k e0 he0
    exact mem_of_lookup_some hp.2.1
  simp only [PluginManager.refresh, PluginRegistry.refresh, PluginRegistry.scanPlugins]
  refine ⟨?_, ?_, ⟨?_, ?_⟩, hlg, ?_, hndd, hndl⟩
  · intro k
    unfold registryEnabled PluginLoader.is_loaded
    simp only
    cases hE : List.lookup k (fs.dirs.foldl (PluginRegistry.scanOne saved) []) with
    | none =>
      cases hlk : (List.lookup k lp).isSome with
      | false => rfl
      | true =>
        exfalso
        have henab : registryEnabled ⟨⟨lp⟩, ⟨pd, entries, saved⟩, hks, fs⟩ k = true := by
          rw [hiff k]
          exact hlk
        have hsome := registryEnabled_true_isSome henab
        rcases Option.isSome_iff_exists.mp hsome with ⟨e0, he0⟩
        have hmem := hregdir k e0 he0
        have hid : e0.manifest.id = k := (hdo'.1 k e0 he0).2.2
        have : (List.lookup k (fs.dirs.foldl (PluginRegistry.scanOne saved) [])).isSome
            = true := by
          rw [scanFold_isSome]
          exact Or.inr ⟨(e0.dir, some e0.manifest), hmem, e0.manifest, rfl, hid⟩
        rw [hE] at this
        simp at this
    | some e =>
      have hQ := scanFold_prop saved fs.dirs [] k
        (fun e => e.enabled = ((List.lookup k entries).map (fun x => x.enabled)).getD false)
        (by intro e he; simp [List.lookup] at he)
        (by
          intro d hd mf hmf hid
          unfold PluginRegistry.scanEntry
          simp only
          rw [hid]
          have := hsm k
          simp only at this
          rw [this]
          cases List.lookup k entries <;> simp)
        e hE
      show e.enabled = (List.lookup k lp).isSome
      rw [hQ]
      have := hiff k
      unfold registryEnabled PluginLoader.is_loaded at this
      exact this
  · intro k
    cases hE : List.lookup k (fs.dirs.foldl (PluginRegistry.scanOne saved) []) with
    | none =>
      have := hsm k
      simp only at this
      rw [this]
      cases he0 : List.lookup k entries with
      | none => rfl
      | some e0 =>
        exfalso
        have hmem := hregdir k e0 he0
        have hid : e0.manifest.id = k := (hdo'.1 k e0 he0).2.2
        have hss : (List.lookup k (fs.dirs.foldl (PluginRegistry.scanOne saved) [])).isSome
            = true := by
          rw [scanFold_isSome]
          exact Or.inr ⟨(e0.dir, some e0.manifest), hmem, e0.manifest, rfl, hid⟩
        rw [hE] at hss
        simp at hss
    | some e =>
      have hQ := scanFold_prop saved fs.dirs [] k
        (fun e => saved.plugins.lookup k = some (PluginState.mk e.enabled e.config))
        (by intro e he; simp [List.lookup] at he)
        (by
          intro d hd mf hmf hid
          rcases hdo'.2 d hd mf hmf with ⟨e0, he0, -⟩
          rw [hid] at he0
          have hs := hsm k
          simp only at hs
          rw [he0] at hs
          unfold PluginRegistry.scanEntry
          simp only
          rw [hid, hs]
          rfl)
        e hE
      simpa using hQ
  · intro k e hE
    exact scanFold_prop saved fs.dirs [] k
      (fun e => e.dir = pd ++ [k] ∧ List.lookup e.dir fs.dirs = some (some e.manifest) ∧
        e.manifest.id = k)
      (by intro e he; simp [List.lookup] at he)
      (by
        intro d hd mf hmf hid
        unfold PluginRegistry.scanEntry
        simp only
        have hcd := hcanon d hd mf hmf
        refine ⟨by rw [hcd, hid], ?_, hid⟩
        have : (d.1, d.2) ∈ fs.dirs := by
          cases d; exact hd
        rw [← hmf]
        exact lookup_of_mem_nodup hndd this)
      e hE
  · intro dv hdv mf hmf
    have hdvdir := hcanon dv hdv mf hmf
    have hss : (List.lookup mf.id (fs.dirs.foldl (PluginRegistry.scanOne saved) [])).isSome
        = true := by
      rw [scanFold_isSome]
      exact Or.inr ⟨dv, hdv, mf, hmf, rfl⟩
    rcases Option.isSome_iff_exists.mp hss with ⟨e, he⟩
    refine ⟨e, he, ?_⟩
    have hQ := scanFold_prop saved fs.dirs [] mf.id (fun e => e.dir = dv.1)
      (by intro e he; simp [List.lookup] at he)
      (by
        intro d hd mf' hmf' hid
        unfold PluginRegistry.scanEntry
        simp only
        rw [hcanon d hd mf' hmf', hid, hdvdir])
      e he
    exact hQ
  · exact scanFold_keysNodup saved fs.dirs [] (by simp [keysNodup])

theorem restoreLoop_consistent (env : Env) (hg : envGood env) :
    ∀ (pending : List String) (s : MState),
      pending.Nodup →
      savedMatches s → dirsOk s → loaderGood s → nodupsOk s →
      (∀ k, k ∉ pending → registryEnabled s k = s.loader.is_loaded k) →
      (∀ k, k ∈ pending → s.loader.is_loaded k = false) →
      stateConsistent (PluginManager.restoreLoop env pending s) := by
  intro pending
  induction pending with
  | nil =>
    intro s _ hsm hdo hlg hnd hiff _
    exact ⟨fun k => hiff k (by simp), hsm, hdo, hlg, hnd.1, hnd.2.1, hnd.2.2⟩
  | cons p rest ih =>
    intro s hnodup hsm hdo hlg hnd hiff hpend
    obtain ⟨hnde, hndd, hndl⟩ := hnd
    obtain ⟨⟨lp⟩, ⟨pd, entries, saved⟩, hks, fs⟩ := s
    have hdo' : dirsOk ⟨⟨[]⟩, ⟨pd, entries, saved⟩, hks, fs⟩ := hdo
    have hpnotrest : p ∉ rest := (List.nodup_cons.mp hnodup).1
    have hrestnodup : rest.Nodup := (List.nodup_cons.mp hnodup).2
    have hpl : List.lookup p lp = none := by
      have := hpend p (List.mem_cons_self _ _)
      unfold PluginLoader.is_loaded at this
      cases hl : List.lookup p lp with
      | none => rfl
      | some f => rw [hl] at this; simp at this
    simp only [PluginManager.restoreLoop, PluginManager.enable]
    cases hent : List.lookup p entries with
    | none =>
      simp only [get_of_none ⟨pd, entries, saved⟩ p hent]
      rw [set_enabled_of_absent ⟨pd, entries, saved⟩ p false (by rw [hent]; simp)]
      apply ih _ hrestnodup hsm hdo hlg ⟨hnde, hndd, hndl⟩
      · intro k hk
        by_cases hkp : k = p
        · subst hkp
          unfold registryEnabled PluginLoader.is_loaded
          simp only
          rw [hent, hpl]
          rfl
        · exact hiff k (by simp [hkp, hk])
      · intro k hk
        exact hpend k (List.mem_cons_of_mem _ hk)
    | some entry =>
      simp only [get_of_some ⟨pd, entries, saved⟩ p entry hent]
      by_cases hlib : fs.files.contains entry.lib_path = true
      · rw [if_neg (not_not_intro hlib)]
        rcases hg entry.lib_path with ⟨m, hm, hsym, hinit, hshut⟩
        have hload := load_of_good env ⟨lp⟩ p entry.lib_path m hm hsym
        rw [if_neg (by rw [hpl]; simp)] at hload
        have hinitp : PluginLoader.initPlugin ⟨(p, m.ffi) :: lp⟩ p
            ⟨p, entry.dir ++ ["data"], entry.config⟩ = .ok () :=
          initPlugin_of_zero _ _ _ m.ffi (by rw [lookup_cons, if_pos rfl]) (hinit _)
        have hsetp := set_enabled_of_present ⟨pd, entries, saved⟩ p true
          (by rw [hent]; rfl)
        simp only [hload, hinitp, hsetp]
        apply ih _ hrestnodup
        · intro k
          simp only [PluginRegistry.save_state]
          rw [deriveData_lookup]
        · constructor
          · intro k e hk
            simp only [PluginRegistry.save_state] at hk ⊢
            exact lookup_updateFlag_dirs hdo' true k e hk
          · intro dv hdv mf hmf
            simp only [PluginRegistry.save_state]
            exact dirs_updateFlag_entries hdo' true dv hdv mf hmf
        · intro q hq
          rcases List.mem_cons.mp hq with hq | hq
          · rw [hq]; exact hshut
          · exact hlg q hq
        · refine ⟨?_, hndd, ?_⟩
          · exact keysNodup_updateVal p (fun e => { e with enabled := true }) entries hnde
          · refine List.nodup_cons.mpr ⟨?_, hndl⟩
            intro hmem
            have := (lookup_isSome_iff_mem_keys p lp).mpr hmem
            rw [hpl] at this
            simp at this
        · intro k hk
          unfold registryEnabled PluginLoader.is_loaded
          simp only [PluginRegistry.save_state]
          rw [lookup_updateVal, lookup_cons]
          by_cases hkp : k = p
          · subst hkp
            rw [if_pos rfl, if_pos rfl, hent]
            simp
          · rw [if_neg hkp, if_neg hkp]
            exact hiff k (by simp [hkp, hk])
        · intro k hk
          unfold PluginLoader.is_loaded
          simp only
          rw [lookup_cons, if_neg (fun hkp : k = p => hpnotrest (hkp ▸ hk))]
          exact hpend k (List.mem_cons_of_mem _ hk)
      · rw [if_pos hlib]
        simp only [set_enabled_of_present ⟨pd, entries, saved⟩ p false (by rw [hent]; rfl)]
        apply ih _ hrestnodup
        · intro k
          simp only [PluginRegistry.save_state]
          rw [deriveData_lookup]
        · constructor
          · intro k e hk
            simp only [PluginRegistry.save_state] at hk ⊢
            exact lookup_updateFlag_dirs hdo' false k e hk
          · intro dv hdv mf hmf
            simp only [PluginRegistry.save_state]
            exact dirs_updateFlag_entries hdo' false dv hdv mf hmf
        · exact hlg
        · refine ⟨?_, hndd, hndl⟩
          exact keysNodup_updateVal p (fun e => { e with enabled := false }) entries hnde
        · intro k hk
          unfold registryEnabled PluginLoader.is_loaded
          simp only [PluginRegistry.save_state]
          rw [lookup_updateVal]
          by_cases hkp : k = p
          · subst hkp
            rw [if_pos rfl, hent, hpl]
            simp
          · rw [if_neg hkp]
            exact hiff k (by simp [hkp, hk])
        · intro k hk
          exact hpend k (List.mem_cons_of_mem _ hk)

theorem enabledIds_filter_form (entries0 : List (String × PluginEntry)) :
    ((entries0.map Prod.snd).filter (fun e => e.enabled)).map (fun e => e.manifest.id) =
      (entries0.filter (fun q => q.2.enabled)).map (fun q => q.2.manifest.id) := by
  induction entries0 with
  | nil => rfl
  | cons q rest ih => cases hq : q.2.enabled <;> simp [hq, ih]

theorem enabledIds_eq_keys (entries0 : List (String × PluginEntry))
    (hnd : keysNodup entries0)
    (hids : ∀ k e, List.lookup k entries0 = some e → e.manifest.id = k) :
    (entries0.filter (fun q => q.2.enabled)).map (fun q => q.2.manifest.id) =
      (entries0.filter (fun q => q.2.enabled)).map Prod.fst := by
  apply List.map_congr_left
  intro q hq
  have hqmem : q ∈ entries0 := List.mem_of_mem_filter hq
  have hl : List.lookup q.1 entries0 = some q.2 := by
    apply lookup_of_mem_nodup hnd
    cases q
    exact hqmem
  exact hids q.1 q.2 hl

theorem mkManager_consistent (env : Env) (plugins_dir : FPath)
    (ondisk : RegistryData) (fs : FS) (hg : envGood env)
    (hpre : preOk plugins_dir ondisk fs) :
    stateConsistent (PluginManager.mkManager env plugins_dir ondisk fs) := by
  obtain ⟨hsm, hdo, hnddirs⟩ := hpre
  unfold PluginManager.mkManager
  have hnde : keysNodup (PluginManager.preState plugins_dir ondisk fs).registry.entries := by
    exact scanFold_keysNodup ondisk fs.dirs [] (by simp [keysNodup])
  have hids : ∀ k e,
      List.lookup k (PluginManager.preState plugins_dir ondisk fs).registry.entries =
        some e → e.manifest.id = k := by
    intro k e he
    exact (hdo.1 k e he).2.2
  have hpend_eq :
      ((PluginManager.preState plugins_dir ondisk fs).registry.enabled_plugins).map
        (fun e => e.manifest.id) =
      ((PluginManager.preState plugins_dir ondisk fs).registry.entries.filter
        (fun q => q.2.enabled)).map Prod.fst := by
    unfold PluginRegistry.enabled_plugins
    rw [enabledIds_filter_form, enabledIds_eq_keys _ hnde hids]
  show stateConsistent
    (PluginManager.restoreLoop env
      (((PluginManager.preState plugins_dir ondisk fs).registry.enabled_plugins).map
        (fun e => e.manifest.id))
      (PluginManager.preState plugins_dir ondisk fs))
  rw [hpend_eq]
  apply restoreLoop_consistent env hg _ _ ?_ hsm hdo ?_ ?_ ?_ ?_
  · exact List.Nodup.sublist ((List.filter_sublist _).map Prod.fst) hnde
  · intro q hq
    simp [PluginManager.preState] at hq
  · refine ⟨hnde, hnddirs, by simp [keysNodup, PluginManager.preState]⟩
  · intro k hk
    have hrhs : (PluginManager.preState plugins_dir ondisk fs).loader.is_loaded k
        = false := by
      simp [PluginManager.preState, PluginLoader.is_loaded, List.lookup]
    rw [hrhs]
    unfold registryEnabled
    cases he : List.lookup k
        (PluginManager.preState plugins_dir ondisk fs).registry.entries with
    | none => rfl
    | some e =>
      cases hen : e.enabled with
      | false => simp [he, hen]
      | true =>
        exfalso
        apply hk
        have hq : (k, e) ∈ (PluginManager.preState plugins_dir ondisk fs).registry.entries
          := mem_of_lookup_some he
        have : (k, e) ∈ (PluginManager.preState plugins_dir ondisk
            fs).registry.entries.filter (fun q => q.2.enabled) := by
          rw [List.mem_filter]
          exact ⟨hq, by simp [hen]⟩
        exact List.mem_map_of_mem Prod.fst this
  · intro k _
    simp [PluginManager.preState, PluginLoader.is_loaded, List.lookup]

theorem applyOp_preserves (env : Env) (s : MState) (op : MOp)
    (hg : envGood env) (hc : stateConsistent s) :
    stateConsistent (applyOp env s op) := by
  cases op with
  | installOp pkg => exact install_preserves s pkg hc
  | enableOp id => exact enable_preserves env s id hg hc
  | disableOp id => exact disable_preserves s id hc
  | uninstallOp id => exact uninstall_preserves s id hc
  | executeToolOp id call => exact hc
  | triggerHookOp name data => exact hc
  | setConfigOp id cfg => exact set_config_preserves s id cfg hc
  | refreshOp => exact refresh_preserves s hc

theorem initPlugin_of_nonzero (l : PluginLoader) (plugin_id : String)
    (ctx : PluginContext) (ffi : PluginFFI)
    (h : l.plugins.lookup plugin_id = some ffi) (h0 : ffi.init ctx ≠ 0) :
    ∃ msg, PluginLoader.initPlugin l plugin_id ctx = .error (.initializeFailed msg) := by
  simp only [PluginLoader.initPlugin, h]
  rw [if_pos h0]
  cases hg : ffi.get_last_error with
  | some m => exact ⟨m, rfl⟩
  | none => exact ⟨_, rfl⟩

theorem triggerLoop_eq_filterMap (l : PluginLoader) (hook_name : String) (data : Json)
    (xs : List String) :
    PluginManager.triggerLoop l hook_name data xs =
      xs.filterMap (fun pid =>
        match l.trigger_hook pid hook_name data with
        | .ok (some v) => some ⟨pid, v⟩
        | _ => none) := by
  induction xs with
  | nil => rfl
  | cons x rest ih =>
    rw [List.filterMap_cons]
    unfold PluginManager.triggerLoop
    cases htr : l.trigger_hook x hook_name data with
    | ok o =>
      cases o with
      | some v => simp [htr, ih]
      | none => simp [htr, ih]
    | error e => simp [htr, ih]

theorem disable_hooks (s : MState) (plugin_id : String) :
    (PluginManager.disable s plugin_id).2.hooks = s.hooks.unregister_all plugin_id := by
  simp only [PluginManager.disable]
  split
  · split
    · rfl
    · split
      · rfl
      · split <;> rfl
  · split <;> rfl

theorem map_fst_mapBucketRemove (m : List (String × List String)) (k v : String) :
    ((HookDispatcher.mapBucketRemove m k v).map Prod.fst).Sublist (m.map Prod.fst) := by
  unfold HookDispatcher.mapBucketRemove
  have h1 : ((m.map (fun p => if p.1 == k then (p.1, p.2.erase v) else p)).filter
      (fun p => !(p.1 == k && p.2.isEmpty))).Sublist
      (m.map (fun p => if p.1 == k then (p.1, p.2.erase v) else p)) :=
    List.filter_sublist _
  have h2 := h1.map Prod.fst
  rw [List.map_map] at h2
  have h3 : m.map (Prod.fst ∘ fun p => if p.1 == k then (p.1, p.2.erase v) else p) =
      m.map Prod.fst := by
    apply List.map_congr_left
    intro p _
    show (if (p.1 == k) = true then (p.1, p.2.erase v) else p).1 = p.1
    split <;> rfl
  rwa [h3] at h2

theorem keysNodup_mapBucketRemove (m : List (String × List String)) (k v : String)
    (h : keysNodup m) : keysNodup (HookDispatcher.mapBucketRemove m k v) :=
  h.sublist (map_fst_mapBucketRemove m k v)

theorem lookup_none_mapBucketRemove (m : List (String × List String)) (k k' v : String)
    (h : List.lookup k' m = none) :
    List.lookup k' (HookDispatcher.mapBucketRemove m k v) = none := by
  cases hres : List.lookup k' (HookDispatcher.mapBucketRemove m k v) with
  | none => rfl
  | some ps =>
    exfalso
    have hmem := (lookup_isSome_iff_mem_keys k'
      (HookDispatcher.mapBucketRemove m k v)).mp (by simp [hres])
    have hmem2 : k' ∈ m.map Prod.fst := (map_fst_mapBucketRemove m k v).mem hmem
    have := (lookup_isSome_iff_mem_keys k' m).mpr hmem2
    rw [h] at this
    simp at this

theorem lookup_mapBucketRemove_ne (m : List (String × List String)) (k k' v : String)
    (hne : k' ≠ k) :
    List.lookup k' (HookDispatcher.mapBucketRemove m k v) = List.lookup k' m := by
  induction m with
  | nil => rfl
  | cons p rest ih =>
    obtain ⟨a, ps⟩ := p
    by_cases hak : a = k
    · subst hak
      show List.lookup k' (List.filter _ ((if (a == a) = true then (a, ps.erase v)
        else (a, ps)) :: _)) = _
      simp only [beq_self_eq_true, if_true]
      rw [List.filter_cons]
      by_cases hemp : (ps.erase v).isEmpty
      · simp only [beq_self_eq_true, hemp, Bool.and_true, Bool.not_true,
          Bool.false_eq_true, if_false]
        rw [lookup_cons, if_neg hne]
        exact ih
      · simp only [beq_self_eq_true, Bool.true_and, hemp, Bool.not_false, if_true]
        rw [lookup_cons, if_neg hne, lookup_cons, if_neg hne]
        exact ih
    · have hbeq : (a == k) = false := by simpa using hak
      show List.lookup k' (List.filter _ ((if (a == k) = true then (a, ps.erase v)
        else (a, ps)) :: _)) = _
      simp only [hbeq, Bool.false_eq_true, if_false]
      rw [List.filter_cons]
      simp only [hbeq, Bool.false_and, Bool.not_false, if_true]
      rw [lookup_cons, lookup_cons]
      by_cases hk' : k' = a
      · simp [hk']
      · rw [if_neg hk', if_neg hk']
        exact ih

theorem lookup_mapBucketRemove_self (m : List (String × List String)) (k v : String)
    (hnd : keysNodup m) :
    List.lookup k (HookDispatcher.mapBucketRemove m k v) =
      (match List.lookup k m with
       | some ps => if (ps.erase v).isEmpty then none else some (ps.erase v)
       | none => none) := by
  induction m with
  | nil => rfl
  | cons p rest ih =>
    obtain ⟨a, ps⟩ := p
    have hcons := keysNodup_cons hnd
    by_cases hak : a = k
    · subst hak
      have hrest : List.lookup a rest = none := by
        cases hl : List.lookup a rest with
        | none => rfl
        | some w =>
          exact absurd ((lookup_isSome_iff_mem_keys a rest).mp (by simp [hl])) hcons.1
      show List.lookup a (List.filter _ ((if (a == a) = true then (a, ps.erase v)
        else (a, ps)) :: _)) = _
      simp only [beq_self_eq_true, if_true]
      rw [List.filter_cons]
      by_cases hemp : (ps.erase v).isEmpty
      · simp only [beq_self_eq_true, hemp, Bool.and_true, Bool.not_true,
          Bool.false_eq_true, if_false]
        show List.lookup a (HookDispatcher.mapBucketRemove rest a v) = _
        rw [lookup_none_mapBucketRemove rest a a v hrest, lookup_cons, if_pos rfl]
        simp [hemp]
      · simp only [beq_self_eq_true, Bool.true_and, hemp, Bool.not_false, if_true]
        rw [lookup_cons, if_pos rfl, lookup_cons, if_pos rfl]
        simp [hemp]
    · have hbeq : (a == k) = false := by simpa using hak
      show List.lookup k (List.filter _ ((if (a == k) = true then (a, ps.erase v)
        else (a, ps)) :: _)) = _
      simp only [hbeq, Bool.false_eq_true, if_false]
      rw [List.filter_cons]
      simp only [hbeq, Bool.false_and, Bool.not_false, if_true]
      rw [lookup_cons, lookup_cons, if_neg (fun h => hak h.symm),
        if_neg (fun h => hak h.symm)]
      exact ih hcons.2

theorem buckets_mapBucketRemove (m : List (String × List String)) (k v : String)
    (h : ∀ q ∈ m, q.2.Nodup) :
    ∀ q ∈ HookDispatcher.mapBucketRemove m k v, q.2.Nodup := by
  intro q hq
  unfold HookDispatcher.mapBucketRemove at hq
  have hq2 := List.mem_of_mem_filter hq
  rcases List.mem_map.mp hq2 with ⟨p, hp, hmap⟩
  by_cases hpk : p.1 == k
  · rw [if_pos hpk] at hmap
    rw [← hmap]
    exact (h p hp).erase v
  · rw [if_neg hpk] at hmap
    rw [← hmap]
    exact h p hp

theorem foldRemove_spec (v : String) (hs : List String) :
    ∀ (acc : List (String × List String)), keysNodup acc → (∀ q ∈ acc, q.2.Nodup) →
      keysNodup (hs.foldl (fun a h => HookDispatcher.mapBucketRemove a h v) acc) ∧
      (∀ q ∈ hs.foldl (fun a h => HookDispatcher.mapBucketRemove a h v) acc, q.2.Nodup) ∧
      (∀ h ps,
        List.lookup h (hs.foldl (fun a h => HookDispatcher.mapBucketRemove a h v) acc) =
          some ps →
        (h ∈ hs → v ∉ ps) ∧ (h ∉ hs → List.lookup h acc = some ps)) := by
  induction hs with
  | nil =>
    intro acc hnd hbk
    exact ⟨hnd, hbk, fun h ps hps => ⟨by simp, fun _ => hps⟩⟩
  | cons h0 rest ih =>
    intro acc hnd hbk
    rw [List.foldl_cons]
    obtain ⟨nd, bk, P⟩ := ih (HookDispatcher.mapBucketRemove acc h0 v)
      (keysNodup_mapBucketRemove acc h0 v hnd) (buckets_mapBucketRemove acc h0 v hbk)
    refine ⟨nd, bk, ?_⟩
    intro h ps hps
    obtain ⟨Pin, Pout⟩ := P h ps hps
    constructor
    · intro hh
      rcases List.mem_cons.mp hh with rfl | hh'
      · by_cases hhr : h ∈ rest
        · exact Pin hhr
        · have hacc' := Pout hhr
          rw [lookup_mapBucketRemove_self acc h v hnd] at hacc'
          cases hl : List.lookup h acc with
          | none => rw [hl] at hacc'; simp at hacc'
          | some ps0 =>
            rw [hl] at hacc'
            by_cases hemp : (ps0.erase v).isEmpty
            · simp [hemp] at hacc'
            · simp [hemp] at hacc'
              rw [← hacc']
              have hps0 : ps0.Nodup := hbk (h, ps0) (mem_of_lookup_some hl)
              intro hcontra
              exact ((hps0.mem_erase_iff).mp hcontra).1 rfl
      · exact Pin hh'
    · intro hh
      have hne : h ≠ h0 := fun he => hh (he ▸ List.mem_cons_self _ _)
      have hnr : h ∉ rest := fun hr => hh (List.mem_cons_of_mem _ hr)
      have := Pout hnr
      rwa [lookup_mapBucketRemove_ne acc h0 h v hne] at this

theorem unregister_all_clears (d : HookDispatcher) (plugin_id : String)
    (hwf : d.WF) :
    (d.unregister_all plugin_id).plugin_hooks.lookup plugin_id = none ∧
    ∀ h, plugin_id ∉ ((d.unregister_all plugin_id).hooks.lookup h).getD [] := by
  obtain ⟨hndf, hndr, hbuckets, hmirror⟩ := hwf
  unfold HookDispatcher.unregister_all
  cases hl : d.plugin_hooks.lookup plugin_id with
  | none =>
    refine ⟨hl, ?_⟩
    intro h hmem
    cases hfl : d.hooks.lookup h with
    | none => rw [hfl] at hmem; simp at hmem
    | some ps =>
      rw [hfl] at hmem
      rcases (hmirror h plugin_id).mp ⟨ps, hfl, by simpa using hmem⟩ with ⟨hs, hhs, -⟩
      rw [hl] at hhs
      simp at hhs
  | some hs =>
    constructor
    · exact lookup_eraseKey_self plugin_id d.plugin_hooks hndr
    · intro h hmem
      obtain ⟨-, -, P⟩ := foldRemove_spec plugin_id hs d.hooks hndf
        (fun q hq => hbuckets q hq)
      cases hres : List.lookup h
          (hs.foldl (fun a hh => HookDispatcher.mapBucketRemove a hh plugin_id) d.hooks) with
      | none => rw [hres] at hmem; simp at hmem
      | some ps =>
        rw [hres] at hmem
        simp only [Option.getD_some] at hmem
        obtain ⟨Pin, Pout⟩ := P h ps hres
        by_cases hhin : h ∈ hs
        · exact Pin hhin hmem
        · have horig := Pout hhin
          rcases (hmirror h plugin_id).mp ⟨ps, horig, hmem⟩ with ⟨hs', hhs', hmemh⟩
          rw [hl] at hhs'
          injection hhs' with hhs'
          exact hhin (hhs' ▸ hmemh)

/-! ### Support facts for the concrete instances -/

theorem exEnvGood_good : envGood exEnvGood := by
  intro path
  exact ⟨exGoodModule, rfl, fun sym _ => rfl, fun ctx => rfl, rfl⟩

theorem exEmptyState_consistent : stateConsistent exEmptyState := by
  refine ⟨fun id => rfl, fun id => rfl, ⟨?_, ?_⟩, ?_, ?_, ?_, ?_⟩
  · intro id e h
    simp [exEmptyState, List.lookup] at h
  · intro dv hdv
    simp [exEmptyState] at hdv
  · intro p hp
    simp [exEmptyState] at hp
  · simp [exEmptyState, keysNodup]
  · simp [exEmptyState, keysNodup]
  · simp [exEmptyState, keysNodup]

theorem exEmpty_preOk : preOk exPd ⟨[]⟩ ⟨[], []⟩ := by
  refine ⟨fun id => rfl, ⟨?_, ?_⟩, ?_⟩
  · intro id e h
    simp [PluginManager.preState, PluginRegistry.new, PluginRegistry.scanPlugins,
      List.lookup] at h
  · intro dv hdv
    simp [PluginManager.preState] at hdv
  · simp [keysNodup]

/-! ### Claim theorems -/

/-- C5: `PluginManager::trigger_hook` never fails as a whole; it returns
exactly one `HookResult` per current subscriber of the hook whose call
succeeds with a non-null value (in subscriber-list order), and silently
omits every subscriber whose call errors or returns null. -/
theorem c5_trigger_hook_collects (s : MState) (hook_name : String) (data : Json) :
    PluginManager.trigger_hook s hook_name data =
      (s.hooks.get_listeners hook_name).filterMap (fun pid =>
        match s.loader.trigger_hook pid hook_name data with
        | .ok (some v) => some ⟨pid, v⟩
        | _ => none) :=
  triggerLoop_eq_filterMap s.loader hook_name data (s.hooks.get_listeners hook_name)

/-- C6: after `PluginManager::disable` the hook dispatcher holds zero
subscriptions for the plugin id — the reverse-map entry is gone and no hook
lists it as a listener — whatever the outcome of the disable, so in
particular on success and when the plugin was already disabled. -/
theorem c6_disable_clears_subscriptions (s : MState) (plugin_id : String)
    (hwf : s.hooks.WF) :
    (PluginManager.disable s plugin_id).2.hooks.plugin_hooks.lookup plugin_id = none ∧
    ∀ h, plugin_id ∉ (PluginManager.disable s plugin_id).2.hooks.get_listeners h := by
  rw [disable_hooks]
  obtain ⟨h1, h2⟩ := unregister_all_clears s.hooks plugin_id hwf
  exact ⟨h1, fun h => h2 h⟩

theorem load_of_none (env : Env) (l : PluginLoader) (plugin_id : String)
    (lib_path : FPath) (hm : env.openLib lib_path = none) :
    PluginLoader.load env l plugin_id lib_path =
      (.error (.libraryLoad "open"),
       if (l.plugins.lookup plugin_id).isSome = true then (l.unload plugin_id).2 else l) := by
  unfold PluginLoader.load
  by_cases hpl : (l.plugins.lookup plugin_id).isSome = true
  · rw [if_pos hpl, unload_of_loaded l plugin_id hpl, hm]
  · rw [if_neg hpl, hm]

theorem load_of_missing (env : Env) (l : PluginLoader) (plugin_id : String)
    (lib_path : FPath) (m : PluginModule) (sy : String)
    (hm : env.openLib lib_path = some m)
    (hf : requiredSymbols.find? (fun s => !(m.hasSymbol s)) = some sy) :
    PluginLoader.load env l plugin_id lib_path =
      (.error (.symbolNotFound sy "symbol"),
       if (l.plugins.lookup plugin_id).isSome = true then (l.unload plugin_id).2 else l) := by
  unfold PluginLoader.load
  by_cases hpl : (l.plugins.lookup plugin_id).isSome = true
  · rw [if_pos hpl, unload_of_loaded l plugin_id hpl, hm]
    simp [hf, hpl, unload_of_loaded l plugin_id hpl]
  · rw [if_neg hpl, hm]
    simp [hf, hpl]

/-- C7: `PluginLoader::load` succeeds exactly when the module opens and all
seven entry points resolve; on any failure no `LoadedPlugin` is registered
for the id afterward. -/
theorem c7_load_resolves_eagerly (env : Env) (l : PluginLoader) (plugin_id : String)
    (lib_path : FPath) (hnd : keysNodup l.plugins) :
    ((PluginLoader.load env l plugin_id lib_path).1.isOk = true ↔
      ∃ m, env.openLib lib_path = some m ∧
        ∀ sym ∈ requiredSymbols, m.hasSymbol sym = true) ∧
    ((PluginLoader.load env l plugin_id lib_path).1.isOk = false →
      (PluginLoader.load env l plugin_id lib_path).2.is_loaded plugin_id = false) := by
  have hafter : PluginLoader.is_loaded
      (if (List.lookup plugin_id l.plugins).isSome = true
       then (l.unload plugin_id).2 else l) plugin_id = false := by
    by_cases hpl : (List.lookup plugin_id l.plugins).isSome = true
    · rw [if_pos hpl, unload_of_loaded l plugin_id hpl]
      unfold PluginLoader.is_loaded
      rw [lookup_eraseKey_self plugin_id l.plugins hnd]
      rfl
    · rw [if_neg hpl]
      unfold PluginLoader.is_loaded
      exact Bool.eq_false_iff.mpr hpl
  cases hm : env.openLib lib_path with
  | none =>
    simp only [load_of_none env l plugin_id lib_path hm]
    refine ⟨⟨fun h => Bool.noConfusion h, ?_⟩, fun _ => hafter⟩
    rintro ⟨m, hm', -⟩
    exact Option.noConfusion hm'
  | some m =>
    cases hf : requiredSymbols.find? (fun s => !(m.hasSymbol s)) with
    | some sy =>
      simp only [load_of_missing env l plugin_id lib_path m sy hm hf]
      refine ⟨⟨fun h => Bool.noConfusion h, ?_⟩, fun _ => hafter⟩
      rintro ⟨m', hm', hall⟩
      injection hm' with hm'
      subst hm'
      have hp := List.find?_some hf
      rw [hall sy (List.mem_of_find?_eq_some hf)] at hp
      simp at hp
    | none =>
      have hsym : ∀ sym ∈ requiredSymbols, m.hasSymbol sym = true := by
        intro sym hs
        have := List.find?_eq_none.mp hf sym hs
        simpa using this
      simp only [load_of_good env l plugin_id lib_path m hm hsym]
      exact ⟨⟨fun _ => ⟨m, rfl, hsym⟩, fun _ => rfl⟩, fun h => Bool.noConfusion h⟩

/-- C8: `PluginManager::execute_tool` fails fast with a "not enabled" error
when the Loader does not hold the plugin (independently of the plugin's
behaviour, so no native call is made), and otherwise returns the Loader's
result unchanged (errors wrapped as `ManagerError.loader`). -/
theorem c8_execute_tool_gate (s : MState) (plugin_id : String) (call : ToolCall) :
    (s.loader.is_loaded plugin_id = false →
      PluginManager.execute_tool s plugin_id call =
        .error (.pluginNotEnabled plugin_id)) ∧
    (∀ r, s.loader.execute_tool plugin_id call = .ok r →
      PluginManager.execute_tool s plugin_id call = .ok r) ∧
    (∀ e, s.loader.execute_tool plugin_id call = .error e →
      s.loader.is_loaded plugin_id = true →
      PluginManager.execute_tool s plugin_id call = .error (.loader e)) := by
  refine ⟨?_, ?_, ?_⟩
  · intro h
    unfold PluginManager.execute_tool
    rw [if_pos (by simp [h])]
  · intro r hr
    have hld : s.loader.is_loaded plugin_id = true := by
      unfold PluginLoader.is_loaded
      unfold PluginLoader.execute_tool at hr
      cases hl : s.loader.plugins.lookup plugin_id with
      | none => rw [hl] at hr; simp at hr
      | some ffi => simp
    unfold PluginManager.execute_tool
    rw [if_neg (by simp [hld]), hr]
  · intro e he hld
    unfold PluginManager.execute_tool
    rw [if_neg (by simp [hld]), he]

/-- C9: `PluginRegistry::register` rejects an already-present id with a
"plugin exists" error leaving the registry (entries and state file) entirely
unchanged; otherwise it inserts an entry with `enabled = false` and an empty
configuration, leaves other ids untouched, and flushes the state file before
returning. -/
theorem c9_register_spec (r : PluginRegistry) (manifest : PluginManifest)
    (plugin_dir : FPath) :
    ((r.entries.lookup manifest.id).isSome = true →
      PluginRegistry.register r manifest plugin_dir =
        (.error (.pluginExists manifest.id), r)) ∧
    ((r.entries.lookup manifest.id).isSome = false →
      (PluginRegistry.register r manifest plugin_dir).1.isOk = true ∧
      (PluginRegistry.register r manifest plugin_dir).2.entries.lookup manifest.id =
        some ⟨manifest, plugin_dir, plugin_dir ++ [manifest.main], false, Json.obj []⟩ ∧
      (∀ k, k ≠ manifest.id →
        (PluginRegistry.register r manifest plugin_dir).2.entries.lookup k =
          r.entries.lookup k) ∧
      (PluginRegistry.register r manifest plugin_dir).2.saved =
        PluginRegistry.deriveData
          (PluginRegistry.register r manifest plugin_dir).2.entries) := by
  constructor
  · intro h
    unfold PluginRegistry.register
    rw [if_pos h]
  · intro h
    rw [register_of_absent r manifest plugin_dir (by simp [h])]
    refine ⟨rfl, ?_, ?_, rfl⟩
    · simp only [PluginRegistry.save_state]
      rw [lookup_cons, if_pos rfl]
    · intro k hk
      simp only [PluginRegistry.save_state]
      rw [lookup_cons, if_neg hk]

/-- C10: `PluginLoader::get_all_tools` is total: it is the concatenation
over the loaded plugins of each plugin's tool list when its `get_tools`
call succeeds, and a plugin whose `get_tools` call errors contributes no
tools instead of failing the whole call. -/
theorem c10_get_all_tools_total (l : PluginLoader) :
    (PluginLoader.get_all_tools l =
      (l.plugins.map Prod.fst).flatMap (fun id =>
        match l.get_tools id with
        | .ok ts => ts
        | .error _ => [])) ∧
    ∀ t, t ∈ PluginLoader.get_all_tools l ↔
      ∃ p ∈ l.plugins, ∃ ts, l.get_tools p.1 = .ok ts ∧ t ∈ ts := by
  constructor
  · rfl
  · intro t
    unfold PluginLoader.get_all_tools
    rw [List.mem_flatMap]
    constructor
    · rintro ⟨id, hid, ht⟩
      rcases List.mem_map.mp hid with ⟨p, hp, hfst⟩
      unfold PluginLoader.unwrapOrNil at ht
      cases hg : l.get_tools id with
      | ok ts =>
        rw [hg] at ht
        exact ⟨p, hp, ts, by rw [hfst, hg], ht⟩
      | error e =>
        rw [hg] at ht
        simp at ht
    · rintro ⟨p, hp, ts, hts, ht⟩
      refine ⟨p.1, List.mem_map_of_mem Prod.fst hp, ?_⟩
      unfold PluginLoader.unwrapOrNil
      rw [hts]
      exact ht

/-- C1 (counterexample): starting from a freshly constructed manager over a
registry holding the disabled plugin `p`, whose module loads but whose
initialize entry point returns 1, the invariant "enabled in the Registry iff
loaded in the Loader" holds before `enable("p")` but is violated immediately
after it returns: the Loader still holds `p` while the Registry has
`enabled = false`. -/
theorem c1_invariant_counterexample :
    registryEnabled (exStart exEnvInitFail) "p" = false ∧
    (exStart exEnvInitFail).loader.is_loaded "p" = false ∧
    registryEnabled exStateInitFail "p" = false ∧
    exStateInitFail.loader.is_loaded "p" = true := by
  refine ⟨?_, ?_, ?_, ?_⟩ <;> decide

/-- C1 (amended): under a well-behaved environment (every library open
resolves all seven entry points and its initialize and shutdown calls return
status 0), the consistency invariant — whose first component is "the
Registry reports an id enabled iff the Loader holds it" — is preserved by
every public Manager operation, and holds after `PluginManager::new`'s
startup restoration from inputs whose scanned state is well-formed.  Without
the well-behavedness assumption the invariant fails: a failed initialize
leaves the module loaded with the Registry entry disabled
(`c1_invariant_counterexample`). -/
theorem c1_enabled_iff_loaded_amended (env : Env) (hg : envGood env) :
    (∀ (s : MState) (op : MOp), stateConsistent s → stateConsistent (applyOp env s op)) ∧
    (∀ (plugins_dir : FPath) (ondisk : RegistryData) (fs : FS),
      preOk plugins_dir ondisk fs →
      stateConsistent (PluginManager.mkManager env plugins_dir ondisk fs)) :=
  ⟨fun s op hc => applyOp_preserves env s op hg hc,
   fun pd od f hp => mkManager_consistent env pd od f hg hp⟩

/-- C1 (witness): the amended theorem applied to a concrete well-behaved
environment, a concrete consistent state with one operation, and a concrete
startup configuration. -/
theorem c1_invariant_witness :
    stateConsistent (applyOp exEnvGood exEmptyState (MOp.enableOp "p")) ∧
    stateConsistent (PluginManager.mkManager exEnvGood exPd ⟨[]⟩ ⟨[], []⟩) :=
  ⟨(c1_enabled_iff_loaded_amended exEnvGood exEnvGood_good).1 exEmptyState
     (MOp.enableOp "p") exEmptyState_consistent,
   (c1_enabled_iff_loaded_amended exEnvGood exEnvGood_good).2 exPd ⟨[]⟩ ⟨[], []⟩
     exEmpty_preOk⟩

/-- C2 (counterexample): enabling `p` when its initialize entry point
returns 1 makes `enable` return an error, but the Loader still holds a
`LoadedPlugin` for `p` afterward — the load is not rolled back, contradicting
the claim. -/
theorem c2_rollback_counterexample :
    (PluginManager.enable exEnvInitFail (exStart exEnvInitFail) "p").1.isOk = false ∧
    exStateInitFail.loader.is_loaded "p" = true := by
  refine ⟨?_, ?_⟩ <;> decide

/-- C2 (amended): when a registered plugin's module loads (library present,
all seven entry points resolve) but its initialize entry point returns a
non-zero status, `PluginManager::enable` returns an error and the Registry
is untouched (so the entry still has `enabled = false` if it was disabled),
but the Loader still holds the `LoadedPlugin`: the load is not rolled back. -/
theorem c2_enable_init_failure_amended (env : Env) (s : MState) (plugin_id : String)
    (entry : PluginEntry) (m : PluginModule)
    (hent : s.registry.entries.lookup plugin_id = some entry)
    (hlib : s.fs.files.contains entry.lib_path = true)
    (hm : env.openLib entry.lib_path = some m)
    (hsym : ∀ sym ∈ requiredSymbols, m.hasSymbol sym = true)
    (hfail : m.ffi.init ⟨plugin_id, entry.dir ++ ["data"], entry.config⟩ ≠ 0) :
    (PluginManager.enable env s plugin_id).1.isOk = false ∧
    (PluginManager.enable env s plugin_id).2.registry = s.registry ∧
    (PluginManager.enable env s plugin_id).2.loader.is_loaded plugin_id = true := by
  obtain ⟨⟨lp⟩, ⟨pd, entries, saved⟩, hks, fs⟩ := s
  simp only [PluginManager.enable]
  simp only [get_of_some ⟨pd, entries, saved⟩ plugin_id entry hent]
  rw [if_neg (not_not_intro hlib)]
  have hload := load_of_good env ⟨lp⟩ plugin_id entry.lib_path m hm hsym
  rcases initPlugin_of_nonzero
      ⟨(plugin_id, m.ffi) ::
        (if (List.lookup plugin_id lp).isSome = true then eraseKey plugin_id lp else lp)⟩
      plugin_id ⟨plugin_id, entry.dir ++ ["data"], entry.config⟩ m.ffi
      (by rw [lookup_cons, if_pos rfl]) hfail with ⟨msg, hinit⟩
  simp only [hload, hinit]
  refine ⟨by trivial, by trivial, ?_⟩
  unfold PluginLoader.is_loaded
  rw [lookup_cons, if_pos rfl]
  rfl

/-- C2 (witness): the amended theorem at the concrete failing-initialize
environment and the freshly constructed manager over `exFS`. -/
theorem c2_enable_init_failure_witness :
    (PluginManager.enable exEnvInitFail (exStart exEnvInitFail) "p").1.isOk = false ∧
    (PluginManager.enable exEnvInitFail (exStart exEnvInitFail) "p").2.registry =
      (exStart exEnvInitFail).registry ∧
    (PluginManager.enable exEnvInitFail
      (exStart exEnvInitFail) "p").2.loader.is_loaded "p" = true :=
  c2_enable_init_failure_amended exEnvInitFail (exStart exEnvInitFail) "p" exEntry
    ⟨fun _ => true, exInitFailFFI⟩ rfl rfl rfl (fun sym _ => rfl) (by decide)

/-- C3 (counterexample): `p` is installed and enabled but its shutdown entry
point returns 1; `uninstall("p")` nevertheless returns success (the internal
disable error is ignored), yet the Loader still holds the `LoadedPlugin` —
contradicting the claim that no loaded module remains. -/
theorem c3_uninstall_counterexample :
    (PluginManager.uninstall exStateShutFail "p").1.isOk = true ∧
    (PluginManager.uninstall exStateShutFail "p").2.loader.is_loaded "p" = true := by
  refine ⟨?_, ?_⟩ <;> decide

/-- C3 (amended): for an installed plugin id (enabled or not), provided the
association lists are duplicate-free and a loaded copy's shutdown entry point
returns 0, `PluginManager::uninstall` succeeds and afterwards the Registry
has no entry for the id, the Loader holds no `LoadedPlugin` for it, and the
plugin's former directory no longer exists.  When the shutdown call fails the
module instead stays loaded (`c3_uninstall_counterexample`). -/
theorem c3_uninstall_amended (s : MState) (plugin_id : String) (e : PluginEntry)
    (hent : s.registry.entries.lookup plugin_id = some e)
    (hnde : keysNodup s.registry.entries) (hndd : keysNodup s.fs.dirs)
    (hndl : keysNodup s.loader.plugins)
    (hsd : ∀ ffi, s.loader.plugins.lookup plugin_id = some ffi → ffi.shutdown = 0) :
    (PluginManager.uninstall s plugin_id).1.isOk = true ∧
    (PluginManager.uninstall s plugin_id).2.registry.entries.lookup plugin_id = none ∧
    (PluginManager.uninstall s plugin_id).2.loader.is_loaded plugin_id = false ∧
    (PluginManager.uninstall s plugin_id).2.fs.dirs.lookup e.dir = none := by
  have hds := disable_state s plugin_id hsd hndl
  simp only [PluginManager.uninstall]
  generalize hgen : (PluginManager.disable s plugin_id).2 = s1 at hds
  obtain ⟨hnl, hkeep, hfs, hpd, hoth, hndk⟩ := hds
  have hnde1 : keysNodup s1.registry.entries := hndk hnde
  have hndd1 : keysNodup s1.fs.dirs := by rw [hfs]; exact hndd
  obtain ⟨⟨lp1⟩, ⟨pd1, entries1, saved1⟩, hks1, fs1⟩ := s1
  have hent1 : List.lookup plugin_id entries1 = some { e with enabled := false } := by
    rw [hkeep, hent]
    rfl
  simp only [get_of_some ⟨pd1, entries1, saved1⟩ plugin_id _ hent1]
  simp only [unregister_of_present ⟨pd1, entries1, saved1⟩ plugin_id (by rw [hent1]; rfl)]
  by_cases hdir : (List.lookup e.dir fs1.dirs).isSome = true
  · rw [if_pos hdir]
    refine ⟨by trivial, ?_, ?_, ?_⟩
    · simp only [PluginRegistry.save_state]
      exact lookup_eraseKey_self plugin_id entries1 hnde1
    · exact hnl
    · show List.lookup e.dir (eraseKey e.dir fs1.dirs) = none
      exact lookup_eraseKey_self e.dir fs1.dirs hndd1
  · rw [if_neg hdir]
    refine ⟨by trivial, ?_, hnl, ?_⟩
    · simp only [PluginRegistry.save_state]
      exact lookup_eraseKey_self plugin_id entries1 hnde1
    · cases hl : List.lookup e.dir fs1.dirs with
      | none => rfl
      | some x => exact absurd (by rw [hl]; rfl) hdir

/-- C3 (witness): the amended theorem at the concrete state in which `p` is
enabled under a fully well-behaved plugin. -/
theorem c3_uninstall_witness :
    (PluginManager.uninstall exStateGood "p").1.isOk = true ∧
    (PluginManager.uninstall exStateGood "p").2.registry.entries.lookup "p" = none ∧
    (PluginManager.uninstall exStateGood "p").2.loader.is_loaded "p" = false ∧
    (PluginManager.uninstall exStateGood "p").2.fs.dirs.lookup exEntryEnabled.dir = none :=
  c3_uninstall_amended exStateGood "p" exEntryEnabled rfl
    (by unfold keysNodup; decide) (by unfold keysNodup; decide)
    (by unfold keysNodup; decide)
    (fun ffi h => by
      have h' : some exGoodFFI = some ffi := h
      injection h' with h'
      rw [← h']
      rfl)

/-- C4 (counterexample): `p` is enabled but its shutdown entry point returns
1; `disable("p")` returns an error and the Registry entry's `enabled` flag is
still `true` when it returns — contradicting the claim that the flag is
false whenever `disable` returns. -/
theorem c4_disable_counterexample :
    (PluginManager.disable exStateShutFail "p").1.isOk = false ∧
    registryEnabled (PluginManager.disable exStateShutFail "p").2 "p" = true := by
  refine ⟨?_, ?_⟩ <;> decide

/-- C4 (amended): for a registered plugin id, whether or not the Loader holds
it, `PluginManager::disable` succeeds and leaves the Registry flag false,
provided a loaded copy's shutdown entry point returns 0 (in particular it is
idempotent on an already-disabled plugin); a failing shutdown instead aborts
the disable with the flag unchanged (`c4_disable_counterexample`). -/
theorem c4_disable_amended (s : MState) (plugin_id : String)
    (hreg : (s.registry.entries.lookup plugin_id).isSome = true)
    (hsd : ∀ ffi, s.loader.plugins.lookup plugin_id = some ffi → ffi.shutdown = 0) :
    (PluginManager.disable s plugin_id).1.isOk = true ∧
    registryEnabled (PluginManager.disable s plugin_id).2 plugin_id = false := by
  obtain ⟨⟨lp⟩, ⟨pd, entries, saved⟩, hks, fs⟩ := s
  simp only [PluginManager.disable]
  by_cases hld : PluginLoader.is_loaded ⟨lp⟩ plugin_id = true
  · rw [if_pos hld]
    have hld' : (List.lookup plugin_id lp).isSome = true := hld
    rcases Option.isSome_iff_exists.mp hld' with ⟨ffi, hffi⟩
    rw [shutdown_of_clean ⟨lp⟩ plugin_id ffi hffi (hsd ffi hffi)]
    rw [unload_of_loaded ⟨lp⟩ plugin_id hld']
    rw [set_enabled_of_present ⟨pd, entries, saved⟩ plugin_id false hreg]
    refine ⟨by trivial, ?_⟩
    unfold registryEnabled
    simp only [PluginRegistry.save_state]
    rw [lookup_updateVal, if_pos rfl]
    rcases Option.isSome_iff_exists.mp hreg with ⟨e0, he0⟩
    rw [he0]
    rfl
  · rw [if_neg hld]
    rw [set_enabled_of_present ⟨pd, entries, saved⟩ plugin_id false hreg]
    refine ⟨by trivial, ?_⟩
    unfold registryEnabled
    simp only [PluginRegistry.save_state]
    rw [lookup_updateVal, if_pos rfl]
    rcases Option.isSome_iff_exists.mp hreg with ⟨e0, he0⟩
    rw [he0]
    rfl

/-- C4 (witness): the amended theorem at the freshly constructed manager in
which `p` is registered but disabled (not loaded). -/
theorem c4_disable_witness :
    (PluginManager.disable (exStart exEnvGood) "p").1.isOk = true ∧
    registryEnabled (PluginManager.disable (exStart exEnvGood) "p").2 "p" = false :=
  c4_disable_amended (exStart exEnvGood) "p" (by decide)
    (fun ffi h => by
      have h' : (none : Option PluginFFI) = some ffi := h
      exact Option.noConfusion h')

/-- The one-subscription dispatcher of `exDispState` satisfies the
representation invariant. -/
theorem exDispState_wf : exDispState.hooks.WF := by
  refine ⟨by unfold keysNodup; decide, by unfold keysNodup; decide, ?_, ?_⟩
  · intro hv hmem
    have : hv = ("on_file_open", ["p"]) := List.mem_singleton.mp hmem
    rw [this]
    decide
  · intro h p
    constructor
    · rintro ⟨ps, hps, hp⟩
      rw [show exDispState.hooks.hooks = [("on_file_open", ["p"])] from rfl] at hps
      rw [lookup_cons] at hps
      by_cases hh : h = "on_file_open"
      · rw [if_pos hh] at hps
        injection hps with hps
        subst hps
        have hp' : p = "p" := List.mem_singleton.mp hp
        subst hp'
        refine ⟨["on_file_open"], ?_, ?_⟩
        · rw [show exDispState.hooks.plugin_hooks = [("p", ["on_file_open"])] from rfl]
          rw [lookup_cons, if_pos rfl]
        · rw [hh]
          exact List.mem_singleton.mpr rfl
      · rw [if_neg hh] at hps
        exact Option.noConfusion hps
    · rintro ⟨hs, hhs, hh⟩
      rw [show exDispState.hooks.plugin_hooks = [("p", ["on_file_open"])] from rfl] at hhs
      rw [lookup_cons] at hhs
      by_cases hp : p = "p"
      · rw [if_pos hp] at hhs
        injection hhs with hhs
        subst hhs
        have hh' : h = "on_file_open" := List.mem_singleton.mp hh
        subst hh'
        refine ⟨["p"], ?_, ?_⟩
        · rw [show exDispState.hooks.hooks = [("on_file_open", ["p"])] from rfl]
          rw [lookup_cons, if_pos rfl]
        · rw [hp]
          exact List.mem_singleton.mpr rfl
      · rw [if_neg hp] at hhs
        exact Option.noConfusion hhs

/-- C6 (witness): at the dispatcher holding the single subscription
`p ↦ on_file_open`, after `disable("p")` the reverse entry is gone and `p`
no longer listens to `on_file_open`. -/
theorem c6_disable_clears_witness :
    (PluginManager.disable exDispState "p").2.hooks.plugin_hooks.lookup "p" = none ∧
    "p" ∉ (PluginManager.disable exDispState "p").2.hooks.get_listeners "on_file_open" :=
  ⟨(c6_disable_clears_subscriptions exDispState "p" exDispState_wf).1,
   (c6_disable_clears_subscriptions exDispState "p" exDispState_wf).2 "on_file_open"⟩

/-- C7 (witness): loading against an environment in which the module fails
to open leaves nothing registered for the id. -/
theorem c7_load_witness :
    (PluginLoader.load exEnvOpenFail ⟨[]⟩ "p" ["x"]).2.is_loaded "p" = false :=
  (c7_load_resolves_eagerly exEnvOpenFail ⟨[]⟩ "p" ["x"]
    (by unfold keysNodup; decide)).2 (by decide)

/-- C8 (witness): against an empty loader, `execute_tool` returns the
"not enabled" error without calling into any plugin. -/
theorem c8_execute_tool_witness :
    PluginManager.execute_tool exEmptyState "p" ⟨"t", Json.null⟩ =
      .error (.pluginNotEnabled "p") :=
  (c8_execute_tool_gate exEmptyState "p" ⟨"t", Json.null⟩).1 rfl

/-- C9 (witness): registering `exManifest` in an empty registry succeeds. -/
theorem c9_register_witness :
    (PluginRegistry.register ⟨exPd, [], ⟨[]⟩⟩ exManifest (exPd ++ ["p"])).1.isOk = true :=
  ((c9_register_spec ⟨exPd, [], ⟨[]⟩⟩ exManifest (exPd ++ ["p"])).2 rfl).1
